import Mathlib

/-!
Verification of the sequence-stratigraphy exam annotation engine.

Shallow embedding of the core program state and operations:
  - the shared termination numbering registry (src/js/canvas.js,
    getNextTerminationNumber / recycleTerminationNumber),
  - the annotation surface (DrawingCanvas) element list, undo/redo stacks
    and two-click termination state machine,
  - the cross-canvas projection of termination pairs onto the Wheeler
    diagram (handleTerminationPlaced in src/exercise/js/storage.js),
  - auto system-tract generation (handleGenerateAutoTract),
  - the wall-clock anchored exam timer (src/unnamed/part_001, the
    deadline-based ExamTimer variant with visibility correction).

Coordinates are modelled as rationals (the source uses JS numbers and the
claims under study concern the algebraic structure of the computations, not
floating-point rounding).  JS arrays used as stacks (push/pop at the end,
shift at the front) are modelled as Lean lists with the most recent entry
first: push is cons, pop takes the head, and evicting the oldest entry
drops the last list element.  Element lists keep source order (append at
the end, the last element is topmost).
-/

namespace SeqStrat

/-- A 2D point, as produced by getMousePos. -/
structure Pt where
  x : ℚ
  y : ℚ
deriving DecidableEq, Repr

/-- The drawable element model of DrawingCanvas (tagged union on the JS
field `type`).  Each variant carries exactly the fields the source stores
on the corresponding object literal; `timestamp` mirrors the Date.now()
value recorded at creation. -/
inductive Element where
  | line (color : String) (width : ℚ) (points : List Pt) (timestamp : Nat)
  | polygon (color : String) (points : List Pt) (timestamp : Nat)
  | marker (color : String) (x y size : ℚ) (timestamp : Nat)
  | text (color : String) (x y : ℚ) (content : String) (fontSize : ℚ)
      (timestamp : Nat)
  | termination (color : String) (x y : ℚ) (label : String) (number : Nat)
      ( isFirstPoint : Bool) (timestamp : Nat)
  | terminationLine (color : String) (x1 x2 y : ℚ) (label : String)
      (number : Nat) (lineWidth : ℚ) (timestamp : Nat)
  | surface (surfaceType : String) (color : String) (width : ℚ)
      (points : List Pt) (timestamp : Nat)
  | systemTract (tractType : String) (color : String) (points : List Pt)
      (timestamp : Nat)
  | drillingProjection (color : String) (x y1 y2 : ℚ) (timestamp : Nat)
deriving DecidableEq, Repr

namespace Element

/-- The JS `type` discriminant string of an element. -/
def typeName : Element → String
  | .line .. => "line"
  | .polygon .. => "polygon"
  | .marker .. => "marker"
  | .text .. => "text"
  | .termination .. => "termination"
  | .terminationLine .. => "terminationLine"
  | .surface .. => "surface"
  | .systemTract .. => "systemTract"
  | .drillingProjection .. => "drillingProjection"

/-- The `number` field, present on termination and terminationLine
elements (undefined on the others, modelled as none). -/
def numberField : Element → Option Nat
  | .termination _ _ _ _ n _ _ => some n
  | .terminationLine _ _ _ _ _ n _ _ => some n
  | _ => none

/-- The `isFirstPoint` field of a termination element. -/
def firstPointFlag : Element → Option Bool
  | .termination _ _ _ _ _ b _ => some b
  | _ => none

end Element

/-- One undo/redo history entry: {action: add|remove, element, index?}. -/
inductive HistAction where
  | add (element : Element)
  | remove (element : Element) (index : Nat)
deriving DecidableEq, Repr

/-- The shared numbering registry: this.terminationCounter =
{count, availableNumbers}.  It is shared by reference between the two
canvases, so the embedding threads it separately from the Canvas state. -/
structure TerminationCounter where
  count : Nat := 0
  availableNumbers : List Nat := []
deriving DecidableEq, Repr

/-- Ascending sort of the recycled pool; embeds the JS in-place
`availableNumbers.sort((a, b) => a - b)`. -/
def sortPool (l : List Nat) : List Nat :=
  l.insertionSort (· ≤ ·)

/-- getNextTerminationNumber (src/js/canvas.js lines 515-530): if recycled
numbers are available, sort them ascending and shift off the smallest;
otherwise increment the counter and return the new count. -/
def getNextTerminationNumber (tc : TerminationCounter) :
    Nat × TerminationCounter :=
  if tc.availableNumbers.isEmpty then
    (tc.count + 1, { tc with count := tc.count + 1 })
  else
    let sorted := sortPool tc.availableNumbers
    (sorted.headD 0, { tc with availableNumbers := sorted.tail })

/-- recycleTerminationNumber (src/js/canvas.js lines 535-542): push the
number into the pool unless it is already present. -/
def recycleTerminationNumber (num : Nat) (tc : TerminationCounter) :
    TerminationCounter :=
  if num ∈ tc.availableNumbers then tc
  else { tc with availableNumbers := tc.availableNumbers ++ [num] }

/-- The two-click termination state record (initTerminationState /
placeTermination).  The JS record stores nullable fields next to the
`waitingForSecondClick` flag; null is modelled as none. -/
structure TermState where
  waitingForSecondClick : Bool := false
  firstPoint : Option Pt := none
  currentNumber : Option Nat := none
  color : Option String := none
deriving DecidableEq, Repr

/-- The DrawingCanvas state relevant to the claims under study.  The
shared terminationCounter is threaded separately (it is shared by
reference between both canvas instances).  DOM-only state (rendering
context, hint elements, text input box) is omitted. -/
structure Canvas where
  elements : List Element := []
  undoStack : List HistAction := []
  redoStack : List HistAction := []
  maxHistory : Nat := 50
  currentTool : String := "line"
  currentColor : String := "#FF0000"
  lineWidth : ℚ := 3
  points : List Pt := []
  isDrawing : Bool := false
  activeElement : Option Element := none
  terminationState : TermState := {}
deriving DecidableEq, Repr

/-- addElement (src/js/canvas.js lines 1051-1068): append the element,
clear the redo stack, evict the oldest undo entry when the stack is at the
history cap, and push an add entry. -/
def addElement (element : Element) (c : Canvas) : Canvas :=
  let und :=
    if c.maxHistory ≤ c.undoStack.length then c.undoStack.dropLast
    else c.undoStack
  { c with
    elements := c.elements ++ [element]
    redoStack := []
    undoStack := HistAction.add element :: und }

/-- undo (src/js/canvas.js lines 1073-1098).  Returns the canvas, the
updated shared registry (an undone termination recycles its number) and
the JS boolean result.  Undoing an add removes the first occurrence of the
element (indexOf + splice); undoing a remove reinserts at the recorded
index. -/
def undo (c : Canvas) (tc : TerminationCounter) :
    Canvas × TerminationCounter × Bool :=
  match c.undoStack with
  | [] => (c, tc, false)
  | action :: rest =>
    match action with
    | .add element =>
      let tc' :=
        match element with
        | .termination _ _ _ _ n _ _ => recycleTerminationNumber n tc
        | _ => tc
      ({ c with
          elements := c.elements.erase element
          undoStack := rest
          redoStack := action :: c.redoStack }, tc', true)
    | .remove element index =>
      ({ c with
          elements := c.elements.insertIdx index element
          undoStack := rest
          redoStack := action :: c.redoStack }, tc, true)

/-- redo (src/js/canvas.js lines 1103-1124). -/
def redo (c : Canvas) : Canvas × Bool :=
  match c.redoStack with
  | [] => (c, false)
  | action :: rest =>
    match action with
    | .add element =>
      ({ c with
          elements := c.elements ++ [element]
          redoStack := rest
          undoStack := action :: c.undoStack }, true)
    | .remove element _ =>
      ({ c with
          elements := c.elements.erase element
          redoStack := rest
          undoStack := action :: c.undoStack }, true)

/-- clear (src/js/canvas.js lines 1129-1141): empties the element list,
both history stacks and the in-progress polyline state.  It does not touch
the termination two-click state, the tool, the color, or the shared
registry. -/
def clear (c : Canvas) : Canvas :=
  { c with
    elements := []
    undoStack := []
    redoStack := []
    points := []
    isDrawing := false
    activeElement := none }

/-- The payload handed to the onTerminationPlaced callback on the second
click of placeTermination. -/
structure TermPayload where
  x1 : ℚ
  x2 : ℚ
  y1 : ℚ
  y2 : ℚ
  label : String
  number : Nat
  color : String
  canvasWidth : ℚ
  canvasHeight : ℚ
deriving DecidableEq, Repr

/-- placeTermination (src/js/canvas.js lines 549-630), parameterised by
the Date.now() timestamp and the hosting canvas pixel size.  First click:
allocate a number from the shared registry, commit an isFirstPoint
termination element and enter the awaiting state.  Second click: commit
the partner element, order the endpoints by x, emit the callback payload
and reset the awaiting state.  The JS code would fault if the awaiting
state lacked its fields; that combination never arises in the program and
the embedding leaves the state unchanged there. -/
def placeTermination (pos : Pt) (ts : Nat) (canvasWidth canvasHeight : ℚ)
    (c : Canvas) (tc : TerminationCounter) :
    Canvas × TerminationCounter × Option TermPayload :=
  if c.terminationState.waitingForSecondClick then
    match c.terminationState.firstPoint, c.terminationState.currentNumber,
        c.terminationState.color with
    | some firstPoint, some num, some color =>
      let element := Element.termination color pos.x pos.y (toString num)
        num false ts
      let c1 := addElement element c
      let x1 := min firstPoint.x pos.x
      let x2 := max firstPoint.x pos.x
      let y1 := if firstPoint.x < pos.x then firstPoint.y else pos.y
      let y2 := if firstPoint.x < pos.x then pos.y else firstPoint.y
      let payload : TermPayload :=
        { x1 := x1, x2 := x2, y1 := y1, y2 := y2
          label := toString num ++ "-" ++ toString num
          number := num, color := color
          canvasWidth := canvasWidth, canvasHeight := canvasHeight }
      ({ c1 with terminationState := {} }, tc, some payload)
    | _, _, _ => (c, tc, none)
  else
    let (num, tc') := getNextTerminationNumber tc
    let element := Element.termination c.currentColor pos.x pos.y
      (toString num) num true ts
    let c1 := addElement element c
    ({ c1 with
        terminationState :=
          { waitingForSecondClick := true
            firstPoint := some pos
            currentNumber := some num
            color := some c.currentColor } }, tc', none)

/-- cancelTermination (src/js/canvas.js lines 675-696): while awaiting the
second click, pop the last element only when it is a termination carrying
the awaited number, recycling that number, then reset the awaiting
state. -/
def cancelTermination (c : Canvas) (tc : TerminationCounter) :
    Canvas × TerminationCounter :=
  if c.terminationState.waitingForSecondClick then
    let popped :=
      match c.elements.getLast?, c.terminationState.currentNumber with
      | some lastElement, some num =>
        if lastElement.typeName = "termination" ∧
            lastElement.numberField = some num then
          some (c.elements.dropLast, num)
        else none
      | _, _ => none
    match popped with
    | some (remaining, num) =>
      ({ c with elements := remaining, terminationState := {} },
        recycleTerminationNumber num tc)
    | none => ({ c with terminationState := {} }, tc)
  else (c, tc)

/-- cancelCurrentOperation (src/js/canvas.js lines 268-281): reset the
multi-click drawing state when active, then cancel any in-progress
termination.  The DOM text-input teardown has no model state. -/
def cancelCurrentOperation (c : Canvas) (tc : TerminationCounter) :
    Canvas × TerminationCounter :=
  let c1 :=
    if c.isDrawing then
      { c with isDrawing := false, points := [], activeElement := none }
    else c
  cancelTermination c1 tc

/-- setTool (src/js/canvas.js lines 1506-1511): cancel whatever is in
progress, then switch the active tool. -/
def setTool (tool : String) (c : Canvas) (tc : TerminationCounter) :
    Canvas × TerminationCounter :=
  let (c1, tc1) := cancelCurrentOperation c tc
  ({ c1 with currentTool := tool }, tc1)

/-- The fixed Wheeler padding used by the projector and backgrounds:
{top: 40, right: 40, bottom: 60, left: 70}. -/
structure Padding where
  top : ℚ := 40
  right : ℚ := 40
  bottom : ℚ := 60
  left : ℚ := 70

def wheelerPadding : Padding := {}

/-- handleTerminationPlaced (src/exercise/js/storage.js lines 829-872):
project the termination pair onto the Wheeler diagram as a single
always-black horizontal terminationLine, mapping each x through the
source-width ratio into the Wheeler plot area, and deriving y from the
sequence number over the assumed maximum of 50. -/
def handleTerminationPlaced (wheelerWidth wheelerHeight : ℚ)
    (termData : TermPayload) (ts : Nat) : Element :=
  let padding := wheelerPadding
  let plotWidth := wheelerWidth - padding.left - padding.right
  let plotHeight := wheelerHeight - padding.top - padding.bottom
  let x1Ratio := termData.x1 / termData.canvasWidth
  let x2Ratio := termData.x2 / termData.canvasWidth
  let wheelerX1 := padding.left + x1Ratio * plotWidth
  let wheelerX2 := padding.left + x2Ratio * plotWidth
  let yRatio := (termData.number : ℚ) / 50
  let wheelerY := wheelerHeight - padding.bottom - yRatio * plotHeight
  Element.terminationLine "#000000" wheelerX1 wheelerX2 wheelerY
    termData.label termData.number 4 ts

/-- The paired-canvas system: the cross-section surface, the Wheeler
surface, the registry shared by reference between them, and the pixel
sizes of the two canvases. -/
structure System where
  crossSection : Canvas
  wheeler : Canvas
  counter : TerminationCounter
  crossWidth : ℚ
  crossHeight : ℚ
  wheelerWidth : ℚ
  wheelerHeight : ℚ
deriving DecidableEq, Repr

/-- A termination-tool click on the cross-section canvas: placeTermination
there and, when the pair completes, inject the projected line into the
Wheeler surface within the same event turn (the orchestrator wires
onTerminationPlaced to handleTerminationPlaced). -/
def sysCrossTermClick (pos : Pt) (ts : Nat) (s : System) : System :=
  let (c', tc', payload?) :=
    placeTermination pos ts s.crossWidth s.crossHeight s.crossSection
      s.counter
  match payload? with
  | some payload =>
    let lineElement :=
      handleTerminationPlaced s.wheelerWidth s.wheelerHeight payload ts
    { s with
        crossSection := c'
        counter := tc'
        wheeler := addElement lineElement s.wheeler }
  | none => { s with crossSection := c', counter := tc' }

/-- A termination-tool click on the Wheeler canvas.  The orchestrator
leaves the Wheeler onTerminationPlaced callback at its no-op default, so a
completed pair there projects nothing. -/
def sysWheelerTermClick (pos : Pt) (ts : Nat) (s : System) : System :=
  let (w', tc', _) :=
    placeTermination pos ts s.wheelerWidth s.wheelerHeight s.wheeler
      s.counter
  { s with wheeler := w', counter := tc' }

/-- The orchestrator setTool (src/exercise/js/storage.js lines 1187-1206)
applies the canvas setTool to both canvases, cross-section first. -/
def sysSetTool (tool : String) (s : System) : System :=
  let (c', tc1) := setTool tool s.crossSection s.counter
  let (w', tc2) := setTool tool s.wheeler tc1
  { s with crossSection := c', wheeler := w', counter := tc2 }

/-- Whether Math.hypot(px - qx, py - qy) < r, expressed without square
roots: the distance is nonnegative, so the strict bound holds exactly when
r is positive and the squared distance is below r squared. -/
def withinRadius (p q : Pt) (r : ℚ) : Bool :=
  decide (0 < r ∧ (p.x - q.x) ^ 2 + (p.y - q.y) ^ 2 < r ^ 2)

/-- pointToLineDistance (src/js/canvas.js lines 1003-1027) compared
against a positive threshold, again via squared distances.  The parameter
along the segment is dot/lenSq when lenSq is nonzero, else -1, selecting
an endpoint or the perpendicular foot. -/
def pointNearSegment (point lineStart lineEnd : Pt) (threshold : ℚ) :
    Bool :=
  let a := point.x - lineStart.x
  let b := point.y - lineStart.y
  let cc := lineEnd.x - lineStart.x
  let d := lineEnd.y - lineStart.y
  let dot := a * cc + b * d
  let lenSq := cc * cc + d * d
  let param : ℚ := if lenSq ≠ 0 then dot / lenSq else -1
  let xx := if param < 0 then lineStart.x
    else if 1 < param then lineEnd.x
    else lineStart.x + param * cc
  let yy := if param < 0 then lineStart.y
    else if 1 < param then lineEnd.y
    else lineStart.y + param * d
  decide (0 < threshold ∧
    (point.x - xx) ^ 2 + (point.y - yy) ^ 2 < threshold ^ 2)

/-- isPointNearLine (src/js/canvas.js lines 992-998): some consecutive
segment of the polyline is within the threshold. -/
def isPointNearLine (pos : Pt) (points : List Pt) (threshold : ℚ) :
    Bool :=
  (List.zip points points.tail).any fun seg =>
    pointNearSegment pos seg.1 seg.2 threshold

/-- isPointInPolygon (src/js/canvas.js lines 1032-1044), the ray-casting
parity test.  The guard makes the divisor nonzero in every counted
branch. -/
def isPointInPolygon (pos : Pt) (points : List Pt) : Bool :=
  let n := points.length
  let idx := List.range n
  idx.foldl
    (fun inside i =>
      let j := if i = 0 then n - 1 else i - 1
      let pi := points.getD i ⟨0, 0⟩
      let pj := points.getD j ⟨0, 0⟩
      if (decide (pos.y < pi.y) ≠ decide (pos.y < pj.y)) ∧
          pos.x < (pj.x - pi.x) * (pos.y - pi.y) / (pj.y - pi.y) + pi.x
      then !inside else inside)
    false

/-- isPointInElement (src/js/canvas.js lines 959-987). -/
def isPointInElement (pos : Pt) (element : Element) : Bool :=
  match element with
  | .line _ _ points _ => isPointNearLine pos points 10
  | .polygon _ points _ => isPointInPolygon pos points
  | .marker _ x y size _ => withinRadius pos ⟨x, y⟩ (size + 5)
  | .text _ x y content fontSize _ =>
    let textWidth : ℚ := content.length * 8
    decide (x ≤ pos.x ∧ pos.x ≤ x + textWidth ∧
      y - fontSize ≤ pos.y ∧ pos.y ≤ y)
  | .termination _ x y _ _ _ _ => withinRadius pos ⟨x, y⟩ 15
  | .terminationLine _ x1 x2 y _ _ _ _ =>
    decide (|pos.y - y| < 10 ∧ x1 ≤ pos.x ∧ pos.x ≤ x2)
  | .surface _ _ _ points _ => isPointNearLine pos points 10
  | .systemTract _ _ points _ => isPointInPolygon pos points
  | .drillingProjection .. => false

/-- findElementAt (src/js/canvas.js lines 944-954): topmost hit first,
returned with its array index. -/
def findElementAt (pos : Pt) (elements : List Element) :
    Option (Element × Nat) :=
  let hits := (elements.enum.reverse).filter fun p =>
    isPointInElement pos p.2
  hits.head?.map fun p => (p.2, p.1)

/-- handleEraser (src/js/canvas.js lines 919-939): remove the topmost
element under the pointer, clearing the redo stack and recording a remove
undo entry.  Note: unlike addElement it records the entry without the
history-cap eviction. -/
def handleEraser (pos : Pt) (c : Canvas) : Canvas :=
  match findElementAt pos c.elements with
  | none => c
  | some (element, index) =>
    { c with
        elements := c.elements.eraseIdx index
        redoStack := []
        undoStack := HistAction.remove element index :: c.undoStack }

/-- The outcome of handleGenerateAutoTract; constructors mirror the three
distinct user-facing toast reasons and the success case. -/
inductive TractResult where
  | invalidNumbers
  | invalidOrder
  | notEnoughTerminations (fromNum toNum : Int) (found : Nat)
  | ok (element : Element)
deriving DecidableEq, Repr

/-- The user-facing toast text of each failure outcome. -/
def TractResult.message : TractResult → String
  | .invalidNumbers => "Please enter valid termination numbers"
  | .invalidOrder => "From number must be less than To number"
  | .notEnoughTerminations fromNum toNum found =>
    "Need at least 2 termination lines in range " ++ toString fromNum ++
      "-" ++ toString toNum ++ ". Found " ++ toString found ++ "."
  | .ok _ => ""

/-- The terminationLine elements of the Wheeler surface whose number lies
in the inclusive range, in element-list order. -/
def tractMatches (elements : List Element) (fromNum toNum : Int) :
    List Element :=
  elements.filter fun el =>
    decide (el.typeName = "terminationLine") &&
      (match el.numberField with
       | some n => decide (fromNum ≤ (n : Int) ∧ (n : Int) ≤ toNum)
       | none => false)

/-- The in-range terminationLines sorted ascending by number
(terminationLines.sort((a, b) => a.number - b.number)). -/
def tractSorted (elements : List Element) (fromNum toNum : Int) :
    List Element :=
  (tractMatches elements fromNum toNum).insertionSort fun a b =>
    a.numberField.getD 0 ≤ b.numberField.getD 0

/-- The left polygon edge: each matching line contributes (x1, y), in
ascending number order. -/
def tractLeftEdge (elements : List Element) (fromNum toNum : Int) :
    List Pt :=
  (tractSorted elements fromNum toNum).map fun el =>
    match el with
    | .terminationLine _ x1 _ y _ _ _ _ => Pt.mk x1 y
    | _ => ⟨0, 0⟩

/-- The right polygon edge: each matching line contributes (x2, y), in
descending number order. -/
def tractRightEdge (elements : List Element) (fromNum toNum : Int) :
    List Pt :=
  (tractSorted elements fromNum toNum).reverse.map fun el =>
    match el with
    | .terminationLine _ _ x2 y _ _ _ _ => Pt.mk x2 y
    | _ => ⟨0, 0⟩

/-- The fixed tract-type colour table of handleGenerateAutoTract. -/
def tractColors (tractType : String) : String :=
  if tractType = "HST" then "#FFFF00"
  else if tractType = "TST" then "#00FFFF"
  else if tractType = "LST" then "#FFA500"
  else if tractType = "FSST" then "#FF69B4"
  else if tractType = "RST" then "#90EE90"
  else "#FFFF00"

/-- handleGenerateAutoTract (src/exercise/js/storage.js lines 923-995).
The two bounds arrive through parseInt; a non-numeric field yields NaN,
modelled as none.  On failure the Wheeler surface is returned untouched;
on success the closed tract polygon (up the x1 edge by ascending number,
back down the x2 edge) is committed through addElement. -/
def handleGenerateAutoTract (wheeler : Canvas)
    (fromNum? toNum? : Option Int) (tractType : String) (ts : Nat) :
    Canvas × TractResult :=
  match fromNum?, toNum? with
  | some fromNum, some toNum =>
    if fromNum < 1 ∨ toNum < 1 then (wheeler, .invalidNumbers)
    else if toNum ≤ fromNum then (wheeler, .invalidOrder)
    else
      let terminationLines := tractMatches wheeler.elements fromNum toNum
      if terminationLines.length < 2 then
        (wheeler,
          .notEnoughTerminations fromNum toNum terminationLines.length)
      else
        let tractElement := Element.systemTract tractType
          (tractColors tractType)
          (tractLeftEdge wheeler.elements fromNum toNum ++
            tractRightEdge wheeler.elements fromNum toNum) ts
        (addElement tractElement wheeler, .ok tractElement)
  | _, _ => (wheeler, .invalidNumbers)

/-- The ExamTimer state (src/unnamed/part_001, the deadline-based variant
with visibility correction).  Times are milliseconds; the wall clock is an
explicit argument of each operation.  localStorage persistence is external
I/O and carries no model state. -/
structure ExamTimer where
  duration : Int := 7200000
  remaining : Int := 7200000
  warningTimes : List Int := [1800000, 900000, 300000]
  warningsShown : List Int := []
  endTime : Option Int := none
  isRunning : Bool := false
deriving DecidableEq, Repr

/-- A fresh timer for a given duration, as built by the constructor. -/
def initTimer (duration : Int) : ExamTimer :=
  { duration := duration, remaining := duration }

/-- The observable callbacks a timer operation fires, in order. -/
inductive TimerEvent where
  | tickEv (remaining : Int) (cls : String)
  | warn (minutes : Int)
  | expire
deriving DecidableEq, Repr

/-- getTimerClass (src/unnamed/part_001 lines 199-210). -/
def getTimerClass (t : ExamTimer) : String :=
  if 1800000 < t.remaining then "safe"
  else if 900000 < t.remaining then "warning"
  else if 300000 < t.remaining then "warning"
  else "danger"

/-- updateRemaining (src/unnamed/part_001 lines 83-87): recompute the
remaining time from the absolute end time and the current wall clock. -/
def updateRemaining (now : Int) (t : ExamTimer) : ExamTimer :=
  match t.endTime with
  | some endTime => { t with remaining := max 0 (endTime - now) }
  | none => t

/-- One step of the tick warning pass: fire the threshold callback when
the freshly recomputed remaining time lies in the window at most the
threshold and above threshold minus 1500 ms and the threshold has not
already fired. -/
def warnStep (acc : ExamTimer × List TimerEvent) (time : Int) :
    ExamTimer × List TimerEvent :=
  let s := acc.1
  let evs := acc.2
  if s.remaining ≤ time ∧ time - 1500 < s.remaining ∧
      time ∉ s.warningsShown then
    ({ s with warningsShown := time :: s.warningsShown },
      evs ++ [TimerEvent.warn (time / 60000)])
  else (s, evs)

/-- The warning pass of tick: this.warningTimes.forEach over the
thresholds in order. -/
def checkWarnings (t : ExamTimer) : ExamTimer × List TimerEvent :=
  t.warningTimes.foldl warnStep (t, [])

/-- tick (src/unnamed/part_001 lines 92-120): recompute from the absolute
end time, run the warning pass, report the tick, and on expiry stop and
fire the expire callback. -/
def tick (now : Int) (t : ExamTimer) : ExamTimer × List TimerEvent :=
  let t1 := updateRemaining now t
  let (t2, warnEvs) := checkWarnings t1
  let evs := warnEvs ++ [TimerEvent.tickEv t2.remaining (getTimerClass t2)]
  if t2.remaining ≤ 0 then
    ({ t2 with isRunning := false, remaining := 0 }, evs ++ [.expire])
  else (t2, evs)

/-- handleVisibilityChange (src/unnamed/part_001 lines 65-78): when
running, immediately recompute from the real clock, report a tick, and
detect expiry while hidden.  No warning pass runs here. -/
def handleVisibilityChange (now : Int) (t : ExamTimer) :
    ExamTimer × List TimerEvent :=
  if t.isRunning then
    let t1 := updateRemaining now t
    let evs := [TimerEvent.tickEv t1.remaining (getTimerClass t1)]
    if t1.remaining ≤ 0 then
      ({ t1 with isRunning := false, remaining := 0 }, evs ++ [.expire])
    else (t1, evs)
  else (t, [])

/-- start (src/unnamed/part_001 lines 34-60): no-op if already running;
otherwise anchor the absolute end time at now plus the remaining time and
report an initial tick. -/
def startTimer (now : Int) (t : ExamTimer) : ExamTimer × List TimerEvent :=
  if t.isRunning then (t, [])
  else
    let t1 := { t with isRunning := true, endTime := some (now + t.remaining) }
    let t2 := updateRemaining now t1
    (t2, [TimerEvent.tickEv t2.remaining (getTimerClass t2)])

/-- setRemaining (src/unnamed/part_001 lines 236-252): clamp to at least
zero, re-anchor the end time, and mark every threshold already at or above
the new remaining time as fired. -/
def setRemaining (ms now : Int) (t : ExamTimer) :
    ExamTimer × List TimerEvent :=
  let remaining := max 0 ms
  let t1 := { t with
    remaining := remaining
    endTime := some (now + remaining)
    warningsShown := [] }
  let t2 := { t1 with
    warningsShown := t1.warningTimes.filter fun time => remaining ≤ time }
  (t2, [TimerEvent.tickEv t2.remaining (getTimerClass t2)])

/-- The first tick callback value in an event list (each timer operation
reports at most one). -/
def reportedTick : List TimerEvent → Option Int
  | [] => none
  | TimerEvent.tickEv r _ :: _ => some r
  | _ :: rest => reportedTick rest

/-- Whether an event is a warning callback. -/
def isWarnEvent : TimerEvent → Bool
  | TimerEvent.warn _ => true
  | _ => false

/-- Whether an event list fires a warning callback. -/
def firesWarning (evs : List TimerEvent) : Bool :=
  evs.any isWarnEvent

/-! ### Helper lemmas -/

lemma sortPool_perm (l : List Nat) : List.Perm (sortPool l) l :=
  List.perm_insertionSort _ l

lemma sortPool_sorted (l : List Nat) : (sortPool l).Sorted (· ≤ ·) :=
  List.sorted_insertionSort _ l

/-- getNextTerminationNumber returns any value that is a lower bound of a
nonempty pool and belongs to it. -/
lemma getNext_eq_min (tc : TerminationCounter) (v : Nat)
    (hv : v ∈ tc.availableNumbers)
    (hmin : ∀ m ∈ tc.availableNumbers, v ≤ m) :
    (getNextTerminationNumber tc).1 = v := by
  have hne : tc.availableNumbers.isEmpty = false := by
    cases h : tc.availableNumbers with
    | nil => rw [h] at hv; cases hv
    | cons a l => rfl
  unfold getNextTerminationNumber
  rw [hne]
  simp only [Bool.false_eq_true, if_false]
  have hperm := sortPool_perm tc.availableNumbers
  have hsorted := sortPool_sorted tc.availableNumbers
  cases hs : sortPool tc.availableNumbers with
  | nil =>
    rw [hs] at hperm
    rw [hperm.symm.eq_nil] at hv
    cases hv
  | cons a t =>
    rw [hs] at hperm hsorted
    have hav : a ∈ tc.availableNumbers := hperm.mem_iff.mp (by simp)
    have h1 : v ≤ a := hmin a hav
    have hvs : v ∈ a :: t := hperm.mem_iff.mpr hv
    rcases List.mem_cons.mp hvs with h | h
    · simpa using h.symm
    · have h2 : a ≤ v := List.rel_of_sorted_cons hsorted v h
      simpa using le_antisymm h2 h1

/-- When the pool is nonempty, the returned number is a member of the
pool, is a lower bound of it, the new pool is the old one with that
occurrence removed (up to the sorting permutation), and the count is
untouched. -/
lemma getNext_nonempty (tc : TerminationCounter)
    (hne : tc.availableNumbers ≠ []) :
    (getNextTerminationNumber tc).1 ∈ tc.availableNumbers ∧
    (∀ m ∈ tc.availableNumbers, (getNextTerminationNumber tc).1 ≤ m) ∧
    (List.Perm (getNextTerminationNumber tc).2.availableNumbers
      (tc.availableNumbers.erase (getNextTerminationNumber tc).1)) ∧
    (getNextTerminationNumber tc).2.count = tc.count := by
  have hne' : tc.availableNumbers.isEmpty = false := by
    cases h : tc.availableNumbers with
    | nil => exact absurd h hne
    | cons a l => rfl
  have hperm := sortPool_perm tc.availableNumbers
  have hsorted := sortPool_sorted tc.availableNumbers
  cases hs : sortPool tc.availableNumbers with
  | nil =>
    rw [hs] at hperm
    cases h : tc.availableNumbers with
    | nil => exact absurd h hne
    | cons a l => rw [h] at hperm; exact absurd hperm.symm.eq_nil (by simp)
  | cons a t =>
    rw [hs] at hperm hsorted
    have hres : getNextTerminationNumber tc =
        (a, { tc with availableNumbers := t }) := by
      unfold getNextTerminationNumber
      rw [hne']
      simp only [Bool.false_eq_true, if_false, hs]
      rfl
    rw [hres]
    refine ⟨hperm.mem_iff.mp (by simp), ?_, ?_, rfl⟩
    · intro m hm
      rcases List.mem_cons.mp (hperm.mem_iff.mpr hm) with h | h
      · exact le_of_eq h.symm
      · exact List.rel_of_sorted_cons hsorted m h
    · have h3 : List.Perm (tc.availableNumbers.erase a) ((a :: t).erase a) :=
        (hperm.erase a).symm
      simpa using h3.symm

/-- When the pool is empty, the counter is incremented and returned. -/
lemma getNext_empty (tc : TerminationCounter)
    (h : tc.availableNumbers = []) :
    getNextTerminationNumber tc =
      (tc.count + 1,
        { count := tc.count + 1, availableNumbers := [] }) := by
  unfold getNextTerminationNumber
  rw [h]
  rfl

/-- Recycling a number already in the pool is a no-op. -/
lemma recycle_mem (tc : TerminationCounter) (n : Nat)
    (h : n ∈ tc.availableNumbers) :
    recycleTerminationNumber n tc = tc := by
  unfold recycleTerminationNumber
  rw [if_pos h]

/-- A value below the whole pool that is recycled into it is returned by
the next allocation. -/
lemma getNext_recycle_roundtrip (tc : TerminationCounter) :
    (getNextTerminationNumber
      (recycleTerminationNumber (getNextTerminationNumber tc).1
        (getNextTerminationNumber tc).2)).1 =
      (getNextTerminationNumber tc).1 := by
  by_cases hne : tc.availableNumbers = []
  · rw [getNext_empty tc hne]
    simp only
    unfold recycleTerminationNumber
    simp only [List.not_mem_nil, if_neg, List.nil_append]
    exact getNext_eq_min _ _ (by simp) (by simp)
  · obtain ⟨hmem, hmin, hperm, -⟩ := getNext_nonempty tc hne
    set v := (getNextTerminationNumber tc).1 with hv
    set tc' := (getNextTerminationNumber tc).2 with htc'
    have hlb : ∀ m ∈ tc'.availableNumbers, v ≤ m := by
      intro m hm
      exact hmin m (List.erase_subset _ _ (hperm.subset hm))
    unfold recycleTerminationNumber
    by_cases hvm : v ∈ tc'.availableNumbers
    · rw [if_pos hvm]
      exact getNext_eq_min tc' v hvm hlb
    · rw [if_neg hvm]
      refine getNext_eq_min _ v (by simp) ?_
      intro m hm
      simp only [List.mem_append, List.mem_singleton] at hm
      rcases hm with h | h
      · exact hlb m h
      · exact le_of_eq h.symm

/-- C4: the registry returns the smallest recycled number when the pool is
nonempty and removes it, increments the count otherwise, recycling is
idempotent, and allocate-recycle-allocate returns the recycled value. -/
theorem registry_smallest_and_idempotent (tc : TerminationCounter) :
    (tc.availableNumbers ≠ [] →
      (getNextTerminationNumber tc).1 ∈ tc.availableNumbers ∧
      (∀ m ∈ tc.availableNumbers, (getNextTerminationNumber tc).1 ≤ m) ∧
      (List.Perm (getNextTerminationNumber tc).2.availableNumbers
        (tc.availableNumbers.erase (getNextTerminationNumber tc).1)) ∧
      (getNextTerminationNumber tc).2.count = tc.count) ∧
    (tc.availableNumbers = [] →
      getNextTerminationNumber tc =
        (tc.count + 1,
          { count := tc.count + 1, availableNumbers := [] })) ∧
    (∀ n ∈ tc.availableNumbers, recycleTerminationNumber n tc = tc) ∧
    (getNextTerminationNumber
      (recycleTerminationNumber (getNextTerminationNumber tc).1
        (getNextTerminationNumber tc).2)).1 =
      (getNextTerminationNumber tc).1 :=
  ⟨getNext_nonempty tc, getNext_empty tc, recycle_mem tc,
    getNext_recycle_roundtrip tc⟩

/-- The warning fold changes the warningsShown set only; the rest of the
timer state passes through. -/
lemma warnFold_state (times : List Int) (s : ExamTimer)
    (evs : List TimerEvent) :
    (times.foldl warnStep (s, evs)).1.remaining = s.remaining ∧
    (times.foldl warnStep (s, evs)).1.endTime = s.endTime ∧
    (times.foldl warnStep (s, evs)).1.isRunning = s.isRunning := by
  induction times generalizing s evs with
  | nil => exact ⟨rfl, rfl, rfl⟩
  | cons time rest ih =>
    simp only [List.foldl_cons, warnStep]
    by_cases h : s.remaining ≤ time ∧ time - 1500 < s.remaining ∧
        time ∉ s.warningsShown
    · rw [if_pos h]
      exact ih _ _
    · rw [if_neg h]
      exact ih s evs

/-- Every event produced by the warning fold either was already in the
accumulator or is the warning of a threshold whose window contains the
current remaining time. -/
lemma warnFold_events (times : List Int) (s : ExamTimer)
    (evs : List TimerEvent) :
    ∀ e ∈ (times.foldl warnStep (s, evs)).2, e ∈ evs ∨
      ∃ time ∈ times, e = TimerEvent.warn (time / 60000) ∧
        s.remaining ≤ time ∧ time - 1500 < s.remaining := by
  induction times generalizing s evs with
  | nil => exact fun e he => Or.inl he
  | cons time rest ih =>
    intro e he
    simp only [List.foldl_cons, warnStep] at he
    by_cases h : s.remaining ≤ time ∧ time - 1500 < s.remaining ∧
        time ∉ s.warningsShown
    · rw [if_pos h] at he
      rcases ih _ _ e he with hmem | ⟨time', ht', he', hw1, hw2⟩
      · rcases List.mem_append.mp hmem with hmem | hmem
        · exact Or.inl hmem
        · refine Or.inr ⟨time, List.mem_cons_self .., ?_, h.1, h.2.1⟩
          simpa using hmem
      · exact Or.inr ⟨time', List.mem_cons_of_mem _ ht', he', hw1, hw2⟩
    · rw [if_neg h] at he
      rcases ih s evs e he with hmem | ⟨time', ht', he', hw1, hw2⟩
      · exact Or.inl hmem
      · exact Or.inr ⟨time', List.mem_cons_of_mem _ ht', he', hw1, hw2⟩

lemma checkWarnings_remaining (t : ExamTimer) :
    (checkWarnings t).1.remaining = t.remaining :=
  (warnFold_state t.warningTimes t []).1

/-- Every event of the warning pass is a warning. -/
lemma checkWarnings_warns (t : ExamTimer) :
    ∀ e ∈ (checkWarnings t).2, isWarnEvent e = true := by
  intro e he
  rcases warnFold_events t.warningTimes t [] e he with h | ⟨_, _, he', _, _⟩
  · cases h
  · rw [he']
    rfl

/-- reportedTick skips warnings and returns the tick callback value. -/
lemma reportedTick_append_warns (l : List TimerEvent) (rest : List TimerEvent)
    (r : Int) (cls : String) (h : ∀ e ∈ l, isWarnEvent e = true) :
    reportedTick (l ++ TimerEvent.tickEv r cls :: rest) = some r := by
  induction l with
  | nil => rfl
  | cons e l ih =>
    have he := h e (List.mem_cons_self ..)
    cases e with
    | tickEv r c => cases he
    | warn m =>
      simp only [List.cons_append, reportedTick]
      exact ih fun e' he' => h e' (List.mem_cons_of_mem _ he')
    | expire =>
      simp only [List.cons_append, reportedTick]
      exact ih fun e' he' => h e' (List.mem_cons_of_mem _ he')

/-- The tick callback of tick reports exactly the remaining time that was
recomputed from the absolute end time at entry. -/
lemma tick_reported (now : Int) (t : ExamTimer) :
    reportedTick (tick now t).2 = some (updateRemaining now t).remaining := by
  unfold tick
  rcases hcw : checkWarnings (updateRemaining now t) with ⟨t2, warnEvs⟩
  have hrem : t2.remaining = (updateRemaining now t).remaining := by
    have := checkWarnings_remaining (updateRemaining now t)
    rw [hcw] at this
    exact this
  have hw : ∀ e ∈ warnEvs, isWarnEvent e = true := by
    have := checkWarnings_warns (updateRemaining now t)
    rw [hcw] at this
    exact this
  simp only [hcw]
  by_cases hz : t2.remaining ≤ 0
  · rw [if_pos hz]
    simp only [List.append_assoc, List.singleton_append]
    rw [reportedTick_append_warns _ _ _ _ hw, hrem]
  · rw [if_neg hz]
    simp only
    rw [reportedTick_append_warns _ _ _ _ hw, hrem]

/-- Every event of tick is a warning of a threshold whose window contains
the recomputed remaining time, the tick callback, or the expiry. -/
lemma tick_events_shape (now : Int) (t : ExamTimer) :
    ∀ e ∈ (tick now t).2,
      (∃ time ∈ t.warningTimes, e = TimerEvent.warn (time / 60000) ∧
        (updateRemaining now t).remaining ≤ time ∧
        time - 1500 < (updateRemaining now t).remaining) ∨
      (∃ r cls, e = TimerEvent.tickEv r cls) ∨ e = TimerEvent.expire := by
  intro e he
  unfold tick at he
  rcases hcw : checkWarnings (updateRemaining now t) with ⟨t2, warnEvs⟩
  simp only [hcw] at he
  have hwt : (updateRemaining now t).warningTimes = t.warningTimes := by
    unfold updateRemaining
    cases t.endTime <;> rfl
  have hmem : e ∈ warnEvs ++
      [TimerEvent.tickEv t2.remaining (getTimerClass t2)] ∨
      e = TimerEvent.expire := by
    by_cases hz : t2.remaining ≤ 0
    · rw [if_pos hz] at he
      simp only at he
      rcases List.mem_append.mp he with h | h
      · exact Or.inl h
      · exact Or.inr (by simpa using h)
    · rw [if_neg hz] at he
      exact Or.inl he
  rcases hmem with hmem | hmem
  · rcases List.mem_append.mp hmem with h | h
    · have := warnFold_events (updateRemaining now t).warningTimes
        (updateRemaining now t) [] e (by rw [show
          (updateRemaining now t).warningTimes.foldl warnStep
            (updateRemaining now t, []) = (t2, warnEvs) from hcw]; exact h)
      rcases this with h' | ⟨time, ht, he', hw1, hw2⟩
      · cases h'
      · rw [hwt] at ht
        exact Or.inl ⟨time, ht, he', hw1, hw2⟩
    · exact Or.inr (Or.inl ⟨t2.remaining, getTimerClass t2, by simpa using h⟩)
  · exact Or.inr (Or.inr hmem)

/-- updateRemaining under a known end time. -/
lemma updateRemaining_eq (t : ExamTimer) (d now : Int)
    (h : t.endTime = some d) :
    updateRemaining now t = { t with remaining := max 0 (d - now) } := by
  unfold updateRemaining
  rw [h]

/-- The visibility handler of a running timer reports the recomputed
remaining time. -/
lemma visibility_reported (now : Int) (t : ExamTimer)
    (h : t.isRunning = true) :
    reportedTick (handleVisibilityChange now t).2 =
      some (updateRemaining now t).remaining := by
  unfold handleVisibilityChange
  rw [h]
  simp only [if_true]
  by_cases hz : (updateRemaining now t).remaining ≤ 0
  · rw [if_pos hz]
    rfl
  · rw [if_neg hz]
    rfl

/-- C1: for a started Exam Timer (absolute end time recorded), every tick
and every visibility check reports max(0, deadline - now), recomputed from
the deadline and independent of the stored remaining counter; in the
2-hour scenario with a 5,999,000 ms suspension the catch-up tick reports
1,201,000 ms, not 7,200,000. -/
theorem timer_remaining_recomputed (t : ExamTimer) (d now : Int)
    (h : t.endTime = some d) :
    reportedTick (tick now t).2 = some (max 0 (d - now)) ∧
    (t.isRunning = true →
      reportedTick (handleVisibilityChange now t).2 =
        some (max 0 (d - now))) ∧
    (startTimer 0 (initTimer 7200000)).1.endTime = some 7200000 ∧
    reportedTick (tick 5999000 (startTimer 0 (initTimer 7200000)).1).2 =
      some 1201000 := by
  refine ⟨?_, ?_, by decide, by decide⟩
  · rw [tick_reported, updateRemaining_eq t d now h]
  · intro hr
    rw [visibility_reported now t hr, updateRemaining_eq t d now h]

/-- Witness for C1 on a running timer whose stored remaining counter (999)
disagrees with its deadline: the tick reports the deadline-derived value,
not the stored one. -/
theorem timer_remaining_recomputed_witness :
    (ExamTimer.mk 10 999 [1800000, 900000, 300000] [] (some 100)
      true).endTime = some 100 ∧
    reportedTick
      (tick 40 (ExamTimer.mk 10 999 [1800000, 900000, 300000] []
        (some 100) true)).2 = some (max 0 (100 - 40)) :=
  ⟨rfl, (timer_remaining_recomputed
    (ExamTimer.mk 10 999 [1800000, 900000, 300000] [] (some 100) true)
    100 40 rfl).1⟩

/-- C2 fails on the code: after a 5,999,000 ms suspension of the 2-hour
timer, the catch-up tick observes 1,201,000 ms remaining, well below the
30-minute threshold, yet fires no warning (the window condition
remaining above threshold minus 1500 fails), records nothing in
warningsShown, and no later tick can ever fire the 30-minute warning. -/
theorem warning_skipped_after_suspension :
    (startTimer 0 (initTimer 7200000)).1.endTime = some 7200000 ∧
    reportedTick (tick 5999000 (startTimer 0 (initTimer 7200000)).1).2 =
      some 1201000 ∧
    firesWarning (tick 5999000 (startTimer 0 (initTimer 7200000)).1).2 =
      false ∧
    (tick 5999000 (startTimer 0 (initTimer 7200000)).1).1.warningsShown =
      [] ∧
    firesWarning
      (tick 6000000
        (tick 5999000 (startTimer 0 (initTimer 7200000)).1).1).2 = false ∧
    ∀ now : Int, 5999000 ≤ now →
      TimerEvent.warn 30 ∉
        (tick now (tick 5999000 (startTimer 0 (initTimer 7200000)).1).1).2 := by
  refine ⟨by decide, by decide, by decide, by decide, by decide, ?_⟩
  intro now hnow he
  have hshape := tick_events_shape now
    (tick 5999000 (startTimer 0 (initTimer 7200000)).1).1 _ he
  have hend : (tick 5999000 (startTimer 0 (initTimer 7200000)).1).1.endTime =
      some 7200000 := by decide
  have hwt : (tick 5999000 (startTimer 0 (initTimer 7200000)).1).1.warningTimes =
      [1800000, 900000, 300000] := by decide
  have hrem : (updateRemaining now
      (tick 5999000 (startTimer 0 (initTimer 7200000)).1).1).remaining =
      max 0 (7200000 - now) := by
    rw [updateRemaining_eq _ 7200000 now hend]
  rcases hshape with ⟨time, ht, heq, hw1, hw2⟩ | ⟨r, cls, heq⟩ | heq
  · rw [hwt] at ht
    rw [hrem] at hw1 hw2
    have h30 : (30 : Int) = time / 60000 := by
      injection heq
    have htv : time = 1800000 ∨ time = 900000 ∨ time = 300000 := by
      simpa using ht
    have hle : max (0 : Int) (7200000 - now) ≤ 1201000 :=
      max_le_iff.mpr ⟨by omega, by omega⟩
    rcases htv with rfl | rfl | rfl
    · omega
    · exact absurd h30 (by decide)
    · exact absurd h30 (by decide)
  · exact TimerEvent.noConfusion heq
  · exact TimerEvent.noConfusion heq

/-- Witness for C2 at the concrete later tick time 7,000,000 ms: even
then the 30-minute warning does not fire. -/
theorem warning_skipped_after_suspension_witness :
    (5999000 : Int) ≤ 7000000 ∧
    TimerEvent.warn 30 ∉
      (tick 7000000
        (tick 5999000 (startTimer 0 (initTimer 7200000)).1).1).2 :=
  ⟨by decide, warning_skipped_after_suspension.2.2.2.2.2 7000000 (by decide)⟩

/-- Witness for C4 at the registry state {count := 5, pool := [7, 3]}:
the smallest pooled number 3 is returned and removed, recycling 7 is a
no-op, and allocate-recycle-allocate returns 3 again. -/
theorem registry_smallest_and_idempotent_witness :
    ((⟨5, [7, 3]⟩ : TerminationCounter).availableNumbers ≠ [] ∧
      (getNextTerminationNumber ⟨5, [7, 3]⟩).1 ∈ [7, 3] ∧
      (getNextTerminationNumber ⟨5, [7, 3]⟩).2.count = 5) ∧
    recycleTerminationNumber 7 ⟨5, [7, 3]⟩ = ⟨5, [7, 3]⟩ ∧
    (getNextTerminationNumber
      (recycleTerminationNumber (getNextTerminationNumber ⟨5, [7, 3]⟩).1
        (getNextTerminationNumber ⟨5, [7, 3]⟩).2)).1 =
      (getNextTerminationNumber ⟨5, [7, 3]⟩).1 := by
  have h := registry_smallest_and_idempotent ⟨5, [7, 3]⟩
  have h1 := h.1 (by decide)
  exact ⟨⟨by decide, h1.1, h1.2.2.2⟩,
    h.2.2.1 7 (by decide), h.2.2.2⟩

/-! ### C10: clear leaves the two-click termination state behind -/

/-- C10: clear empties the element list, both history stacks and the
in-progress polyline state, while the two-click termination state (and
the shared registry, which clear never touches) survives; the next
termination click is handled as the second click of the pre-clear pair
and fires the projection payload from the stale first point without
allocating a number. -/
theorem clear_keeps_termination_state (c : Canvas)
    (tc : TerminationCounter) (fp : Pt) (n : Nat) (col : String)
    (pos : Pt) (ts : Nat) (w h : ℚ)
    (hw : c.terminationState = TermState.mk true (some fp) (some n)
      (some col)) :
    (clear c).elements = [] ∧
    (clear c).undoStack = [] ∧
    (clear c).redoStack = [] ∧
    (clear c).points = [] ∧
    (clear c).isDrawing = false ∧
    (clear c).activeElement = none ∧
    (clear c).terminationState = c.terminationState ∧
    (clear c).currentTool = c.currentTool ∧
    (clear c).currentColor = c.currentColor ∧
    (placeTermination pos ts w h (clear c) tc).2.1 = tc ∧
    (placeTermination pos ts w h (clear c) tc).2.2 = some
      (TermPayload.mk (min fp.x pos.x) (max fp.x pos.x)
        (if fp.x < pos.x then fp.y else pos.y)
        (if fp.x < pos.x then pos.y else fp.y)
        (toString n ++ "-" ++ toString n) n col w h) ∧
    (placeTermination pos ts w h (clear c) tc).1.terminationState = {} ∧
    (placeTermination pos ts w h (clear c) tc).1.elements =
      [Element.termination col pos.x pos.y (toString n) n false ts] := by
  have hcs : (clear c).terminationState =
      TermState.mk true (some fp) (some n) (some col) := hw
  refine ⟨rfl, rfl, rfl, rfl, rfl, rfl, rfl, rfl, rfl, ?_, ?_, ?_, ?_⟩
  all_goals
    unfold placeTermination
    rw [hcs]
    simp [addElement, clear]

/-- Witness for C10: a surface awaiting the second click at first point
(5, 5) with number 1, cleared, then clicked at (9, 2). -/
theorem clear_keeps_termination_state_witness :
    (placeTermination ⟨9, 2⟩ 7 1400 500
      (clear { terminationState :=
        TermState.mk true (some ⟨5, 5⟩) (some 1) (some "#0000FF") })
      ⟨1, []⟩).2.2 = some
      (TermPayload.mk (min (5 : ℚ) 9) (max (5 : ℚ) 9)
        (if (5 : ℚ) < 9 then (5 : ℚ) else 2)
        (if (5 : ℚ) < 9 then (2 : ℚ) else 5)
        (toString 1 ++ "-" ++ toString 1) 1 "#0000FF" 1400 500) :=
  (clear_keeps_termination_state
    { terminationState :=
        TermState.mk true (some ⟨5, 5⟩) (some 1) (some "#0000FF") }
    ⟨1, []⟩ ⟨5, 5⟩ 1 "#0000FF" ⟨9, 2⟩ 7 1400 500 rfl).2.2.2.2.2.2.2.2.2.2.1

/-! ### C3: termination pairs project to a single black Wheeler line -/

/-- C3: a completed two-click termination placement (clicks a then b, any
drawing color) adds exactly one terminationLine to the Wheeler surface:
none on the first click, and on the second click a single line whose
x-span is the min/max of the click xs mapped through
padding.left + (x / sourceCanvasWidth) * plotWidth, whose color is the
hardcoded black, and whose endpoints satisfy x1 at most x2 for positive
canvas and plot widths. -/
theorem termination_projects_black_line (s : System) (a b : Pt)
    (ts1 ts2 : Nat)
    (h : s.crossSection.terminationState.waitingForSecondClick = false) :
    (sysCrossTermClick a ts1 s).wheeler = s.wheeler ∧
    (sysCrossTermClick b ts2 (sysCrossTermClick a ts1 s)).wheeler.elements =
      s.wheeler.elements ++
      [Element.terminationLine "#000000"
        (70 + min a.x b.x / s.crossWidth * (s.wheelerWidth - 70 - 40))
        (70 + max a.x b.x / s.crossWidth * (s.wheelerWidth - 70 - 40))
        (s.wheelerHeight - 60 -
          ((getNextTerminationNumber s.counter).1 : ℚ) / 50 *
            (s.wheelerHeight - 40 - 60))
        (toString (getNextTerminationNumber s.counter).1 ++ "-" ++
          toString (getNextTerminationNumber s.counter).1)
        (getNextTerminationNumber s.counter).1 4 ts2] ∧
    (0 < s.crossWidth → 0 ≤ s.wheelerWidth - 70 - 40 →
      70 + min a.x b.x / s.crossWidth * (s.wheelerWidth - 70 - 40) ≤
        70 + max a.x b.x / s.crossWidth * (s.wheelerWidth - 70 - 40)) := by
  rcases hn : getNextTerminationNumber s.counter with ⟨num, tc'⟩
  have hfirst : sysCrossTermClick a ts1 s =
      { s with
          crossSection :=
            { addElement (Element.termination s.crossSection.currentColor
                a.x a.y (toString num) num true ts1) s.crossSection with
              terminationState :=
                TermState.mk true (some a) (some num)
                  (some s.crossSection.currentColor) }
          counter := tc' } := by
    unfold sysCrossTermClick placeTermination
    rw [h]
    simp only [Bool.false_eq_true, if_false, hn]
  refine ⟨by rw [hfirst], ?_, ?_⟩
  · rw [hfirst]
    unfold sysCrossTermClick placeTermination
    simp only [addElement]
    unfold handleTerminationPlaced wheelerPadding
    simp only [hn]
    rfl
  · intro hcw hpw
    have hx : min a.x b.x / s.crossWidth ≤ max a.x b.x / s.crossWidth :=
      (div_le_div_iff_of_pos_right hcw).mpr min_le_max
    exact add_le_add_left (mul_le_mul_of_nonneg_right hx hpw) 70

/-- Witness for C3: clicks at x = 300 then x = 100 on a 1400-px
cross-section project onto a 1200-px Wheeler canvas. -/
theorem termination_projects_black_line_witness :
    (({} : Canvas).terminationState.waitingForSecondClick = false) ∧
    (sysCrossTermClick ⟨100, 80⟩ 2 (sysCrossTermClick ⟨300, 50⟩ 1
        (System.mk {} {} {} 1400 500 1200 750))).wheeler.elements =
      ([] : List Element) ++
      [Element.terminationLine "#000000"
        (70 + min (300 : ℚ) 100 / 1400 * (1200 - 70 - 40))
        (70 + max (300 : ℚ) 100 / 1400 * (1200 - 70 - 40))
        (750 - 60 -
          ((getNextTerminationNumber {}).1 : ℚ) / 50 * (750 - 40 - 60))
        (toString (getNextTerminationNumber ({} : TerminationCounter)).1
          ++ "-" ++
          toString (getNextTerminationNumber ({} : TerminationCounter)).1)
        (getNextTerminationNumber ({} : TerminationCounter)).1 4 2] :=
  ⟨rfl, (termination_projects_black_line
    (System.mk {} {} {} 1400 500 1200 750) ⟨300, 50⟩ ⟨100, 80⟩ 1 2
    rfl).2.1⟩

/-! ### C6: setTool cancellation of an awaiting two-click termination -/

/-- A reachable run of the paired-canvas system: the Wheeler surface gets
a first termination click (number 1) and, while it awaits its second
click, a completed pair on the cross-section injects a projected
terminationLine on top of it; then the orchestrator switches tool on both
canvases. -/
def orphanRun : System :=
  sysSetTool "line"
    (sysCrossTermClick ⟨300, 80⟩ 3
      (sysCrossTermClick ⟨100, 50⟩ 2
        (sysWheelerTermClick ⟨200, 100⟩ 1
          (System.mk {} {} {} 1400 500 1400 750))))

/-- C6 fails on the code: in a reachable state awaiting the second
termination click whose first-click element is no longer the last element
(a projected terminationLine landed on top of it), setTool resets the
awaiting state but leaves the orphaned first-click element in the list
and does not recycle its number. -/
theorem setTool_leaves_orphan_after_projection :
    (sysCrossTermClick ⟨300, 80⟩ 3 (sysCrossTermClick ⟨100, 50⟩ 2
      (sysWheelerTermClick ⟨200, 100⟩ 1 (System.mk {} {} {} 1400 500
        1400 750)))).wheeler.terminationState.waitingForSecondClick =
      true ∧
    Element.termination "#FF0000" 200 100 "1" 1 true 1 ∈
      orphanRun.wheeler.elements ∧
    orphanRun.counter.availableNumbers = [] ∧
    orphanRun.wheeler.terminationState.waitingForSecondClick = false ∧
    orphanRun.wheeler.currentTool = "line" := by
  refine ⟨by decide, ?_, by decide, by decide, by decide⟩
  show _ ∈ orphanRun.wheeler.elements
  decide

/-- Membership of a recycled number in the pool afterwards. -/
lemma mem_recycle (n : Nat) (tc : TerminationCounter) :
    n ∈ (recycleTerminationNumber n tc).availableNumbers := by
  unfold recycleTerminationNumber
  by_cases h : n ∈ tc.availableNumbers
  · rw [if_pos h]
    exact h
  · rw [if_neg h]
    simp

/-- cancelTermination in the normal case: the awaited first-click
element is the last element of the list. -/
lemma cancelTermination_topmost (c : Canvas) (tc : TerminationCounter)
    (fp : Pt) (n : Nat) (col : String) (rest : List Element)
    (el : Element)
    (hw : c.terminationState = TermState.mk true (some fp) (some n)
      (some col))
    (hel : c.elements = rest ++ [el])
    (hty : el.typeName = "termination")
    (hnum : el.numberField = some n) :
    cancelTermination c tc =
      ({ c with elements := rest, terminationState := {} },
        recycleTerminationNumber n tc) := by
  unfold cancelTermination
  rw [hw, hel]
  simp [List.getLast?_concat, hty, hnum]

/-- C6 amended: whenever the awaited first-click element is still the
last element of the list (the normal case: nothing was added on top of
it), setTool removes exactly that element, recycles its number into the
shared pool, resets the awaiting state, discards any uncommitted
in-progress points, and switches the tool.  When a later element sits on
top, the orphan stays and its number is not recycled (see the
counterexample). -/
theorem setTool_cancels_topmost_first_click (c : Canvas)
    (tc : TerminationCounter) (tool : String) (fp : Pt) (n : Nat)
    (col : String) (rest : List Element) (el : Element)
    (hw : c.terminationState = TermState.mk true (some fp) (some n)
      (some col))
    (hel : c.elements = rest ++ [el])
    (hty : el.typeName = "termination")
    (hnum : el.numberField = some n) :
    (setTool tool c tc).1.elements = rest ∧
    n ∈ (setTool tool c tc).2.availableNumbers ∧
    (setTool tool c tc).1.terminationState = {} ∧
    (setTool tool c tc).1.currentTool = tool ∧
    (setTool tool c tc).1.isDrawing = false ∧
    (c.isDrawing = true → (setTool tool c tc).1.points = []) ∧
    (c.isDrawing = false → (setTool tool c tc).1.points = c.points) := by
  unfold setTool cancelCurrentOperation
  by_cases hd : c.isDrawing = true
  · rw [if_pos hd]
    simp only [cancelTermination_topmost
      { c with isDrawing := false, points := [], activeElement := none }
      tc fp n col rest el hw hel hty hnum]
    simp [mem_recycle n tc, hd]
  · rw [if_neg hd]
    simp only [cancelTermination_topmost c tc fp n col rest el hw hel
      hty hnum]
    have hfalse : c.isDrawing = false := by
      cases hb : c.isDrawing
      · rfl
      · exact absurd hb hd
    simp [mem_recycle n tc, hfalse]

/-- Witness for the amended C6: a surface whose only element is the
awaited first-click termination; setTool empties the list, recycles the
number, and switches to the eraser tool. -/
theorem setTool_cancels_topmost_first_click_witness :
    (setTool "eraser"
      { elements := [Element.termination "#FF0000" 4 5 "1" 1 true 0]
        terminationState :=
          TermState.mk true (some ⟨4, 5⟩) (some 1) (some "#FF0000") }
      ⟨1, []⟩).1.elements = [] ∧
    1 ∈ (setTool "eraser"
      { elements := [Element.termination "#FF0000" 4 5 "1" 1 true 0]
        terminationState :=
          TermState.mk true (some ⟨4, 5⟩) (some 1) (some "#FF0000") }
      ⟨1, []⟩).2.availableNumbers := by
  have h := setTool_cancels_topmost_first_click
    { elements := [Element.termination "#FF0000" 4 5 "1" 1 true 0]
      terminationState :=
        TermState.mk true (some ⟨4, 5⟩) (some 1) (some "#FF0000") }
    ⟨1, []⟩ "eraser" ⟨4, 5⟩ 1 "#FF0000" []
    (Element.termination "#FF0000" 4 5 "1" 1 true 0) rfl rfl rfl rfl
  exact ⟨h.1, h.2.1⟩

/-! ### C8: auto-tract validation and polygon construction -/

lemma tractSorted_perm (elements : List Element) (fromNum toNum : Int) :
    List.Perm (tractSorted elements fromNum toNum)
      (tractMatches elements fromNum toNum) :=
  List.perm_insertionSort _ _

lemma tractSorted_sorted (elements : List Element) (fromNum toNum : Int) :
    (tractSorted elements fromNum toNum).Sorted
      (fun a b => a.numberField.getD 0 ≤ b.numberField.getD 0) := by
  haveI : IsTotal Element
      (fun a b => a.numberField.getD 0 ≤ b.numberField.getD 0) :=
    ⟨fun a b => le_total _ _⟩
  haveI : IsTrans Element
      (fun a b => a.numberField.getD 0 ≤ b.numberField.getD 0) :=
    ⟨fun a b c => le_trans⟩
  exact List.sorted_insertionSort _ _

/-- C8: auto-tract generation fails with the distinct invalid-range
outcomes when either bound is missing or below 1 or from is at least to,
fails with the distinct not-enough outcome when fewer than 2 in-range
terminationLines exist, mutates nothing on failure, and on success
appends exactly one systemTract polygon built from the in-range lines:
their (x1, y) in ascending number order followed by their (x2, y) in
descending number order, with 2 vertices per matching line. -/
theorem autoTract_validation_and_polygon (wheeler : Canvas)
    (fromNum toNum : Int) (toNum? fromNum? : Option Int)
    (tt : String) (ts : Nat) :
    handleGenerateAutoTract wheeler none toNum? tt ts =
      (wheeler, TractResult.invalidNumbers) ∧
    handleGenerateAutoTract wheeler fromNum? none tt ts =
      (wheeler, TractResult.invalidNumbers) ∧
    ((fromNum < 1 ∨ toNum < 1) →
      handleGenerateAutoTract wheeler (some fromNum) (some toNum) tt ts =
        (wheeler, TractResult.invalidNumbers)) ∧
    (1 ≤ fromNum → 1 ≤ toNum → toNum ≤ fromNum →
      handleGenerateAutoTract wheeler (some fromNum) (some toNum) tt ts =
        (wheeler, TractResult.invalidOrder)) ∧
    (1 ≤ fromNum → fromNum < toNum →
      (tractMatches wheeler.elements fromNum toNum).length < 2 →
      handleGenerateAutoTract wheeler (some fromNum) (some toNum) tt ts =
        (wheeler, TractResult.notEnoughTerminations fromNum toNum
          (tractMatches wheeler.elements fromNum toNum).length)) ∧
    (1 ≤ fromNum → fromNum < toNum →
      2 ≤ (tractMatches wheeler.elements fromNum toNum).length →
      handleGenerateAutoTract wheeler (some fromNum) (some toNum) tt ts =
        (addElement (Element.systemTract tt (tractColors tt)
            (tractLeftEdge wheeler.elements fromNum toNum ++
              tractRightEdge wheeler.elements fromNum toNum) ts) wheeler,
          TractResult.ok (Element.systemTract tt (tractColors tt)
            (tractLeftEdge wheeler.elements fromNum toNum ++
              tractRightEdge wheeler.elements fromNum toNum) ts)) ∧
      (addElement (Element.systemTract tt (tractColors tt)
          (tractLeftEdge wheeler.elements fromNum toNum ++
            tractRightEdge wheeler.elements fromNum toNum) ts)
          wheeler).elements =
        wheeler.elements ++ [Element.systemTract tt (tractColors tt)
          (tractLeftEdge wheeler.elements fromNum toNum ++
            tractRightEdge wheeler.elements fromNum toNum) ts]) ∧
    List.Perm (tractSorted wheeler.elements fromNum toNum)
      (tractMatches wheeler.elements fromNum toNum) ∧
    (tractSorted wheeler.elements fromNum toNum).Sorted
      (fun a b => a.numberField.getD 0 ≤ b.numberField.getD 0) ∧
    (tractLeftEdge wheeler.elements fromNum toNum ++
      tractRightEdge wheeler.elements fromNum toNum).length =
      2 * (tractMatches wheeler.elements fromNum toNum).length := by
  have hlen : (tractSorted wheeler.elements fromNum toNum).length =
      (tractMatches wheeler.elements fromNum toNum).length :=
    (tractSorted_perm wheeler.elements fromNum toNum).length_eq
  refine ⟨rfl, ?_, ?_, ?_, ?_, ?_,
    tractSorted_perm wheeler.elements fromNum toNum,
    tractSorted_sorted wheeler.elements fromNum toNum, ?_⟩
  · cases fromNum? <;> rfl
  · intro h
    unfold handleGenerateAutoTract
    dsimp only
    rw [if_pos h]
  · intro h1 h2 h3
    unfold handleGenerateAutoTract
    dsimp only
    rw [if_neg (by omega), if_pos h3]
  · intro h1 h2 h3
    unfold handleGenerateAutoTract
    dsimp only
    rw [if_neg (by omega), if_neg (by omega), if_pos h3]
  · intro h1 h2 h3
    unfold handleGenerateAutoTract
    dsimp only
    rw [if_neg (by omega), if_neg (by omega), if_neg (by omega)]
    exact ⟨rfl, rfl⟩
  · simp only [List.length_append, tractLeftEdge, tractRightEdge,
      List.length_map, List.length_reverse, hlen]
    omega

/-- Witness for C8: a Wheeler surface holding lines numbered 1 and 2,
range [1, 3]: generation succeeds with one 4-vertex systemTract. -/
theorem autoTract_validation_and_polygon_witness :
    (1 : Int) ≤ 1 ∧ (1 : Int) < 3 ∧
    2 ≤ (tractMatches [Element.terminationLine "#000000" 10 20 100 "1-1"
        1 4 0, Element.terminationLine "#000000" 30 40 90 "2-2" 2 4 0]
        1 3).length ∧
    handleGenerateAutoTract
      { elements := [Element.terminationLine "#000000" 10 20 100 "1-1"
          1 4 0, Element.terminationLine "#000000" 30 40 90 "2-2" 2 4 0] }
      (some 1) (some 3) "HST" 5 =
      (addElement (Element.systemTract "HST" (tractColors "HST")
          (tractLeftEdge [Element.terminationLine "#000000" 10 20 100
              "1-1" 1 4 0, Element.terminationLine "#000000" 30 40 90
              "2-2" 2 4 0] 1 3 ++
            tractRightEdge [Element.terminationLine "#000000" 10 20 100
              "1-1" 1 4 0, Element.terminationLine "#000000" 30 40 90
              "2-2" 2 4 0] 1 3) 5)
        { elements := [Element.terminationLine "#000000" 10 20 100 "1-1"
            1 4 0, Element.terminationLine "#000000" 30 40 90 "2-2" 2
            4 0] },
        TractResult.ok (Element.systemTract "HST" (tractColors "HST")
          (tractLeftEdge [Element.terminationLine "#000000" 10 20 100
              "1-1" 1 4 0, Element.terminationLine "#000000" 30 40 90
              "2-2" 2 4 0] 1 3 ++
            tractRightEdge [Element.terminationLine "#000000" 10 20 100
              "1-1" 1 4 0, Element.terminationLine "#000000" 30 40 90
              "2-2" 2 4 0] 1 3) 5)) := by
  refine ⟨by decide, by decide, by decide, ?_⟩
  exact ((autoTract_validation_and_polygon
    { elements := [Element.terminationLine "#000000" 10 20 100 "1-1" 1
        4 0, Element.terminationLine "#000000" 30 40 90 "2-2" 2 4 0] }
    1 3 none none "HST" 5).2.2.2.2.2.1 (by decide) (by decide)
    (by decide)).1

/-! ### C7: history stack bound -/

/-- The operation alphabet of a surface run for the history-bound
claim. -/
inductive CanvasOp where
  | addOp (e : Element)
  | eraseOp (pos : Pt)
  | undoOp
  | redoOp
  | clearOp
deriving DecidableEq, Repr

/-- Whether an operation is an eraser removal. -/
def isEraseOp : CanvasOp → Bool
  | .eraseOp _ => true
  | _ => false

/-- Apply one operation to the surface state and shared registry. -/
def applyOp (s : Canvas × TerminationCounter) (op : CanvasOp) :
    Canvas × TerminationCounter :=
  match op with
  | .addOp e => (addElement e s.1, s.2)
  | .eraseOp pos => (handleEraser pos s.1, s.2)
  | .undoOp => ((undo s.1 s.2).1, (undo s.1 s.2).2.1)
  | .redoOp => ((redo s.1).1, s.2)
  | .clearOp => (clear s.1, s.2)

/-- A run of surface operations. -/
def runOps (ops : List CanvasOp) (s : Canvas × TerminationCounter) :
    Canvas × TerminationCounter :=
  ops.foldl applyOp s

/-- Fifty markers (distinct timestamps) at the origin. -/
def overflowMarkers : List Element :=
  (List.range 50).map fun i => Element.marker "#FF0000" 0 0 12 i

/-- The surface after 50 addElement calls from a fresh state. -/
def overflowState : Canvas :=
  overflowMarkers.foldl (fun c e => addElement e c) {}

/-- Every element of the overflow surface is hit at the origin. -/
lemma overflow_hit :
    ∀ p ∈ overflowState.elements.enum.reverse,
      isPointInElement ⟨0, 0⟩ p.2 = true := by
  have helems : overflowState.elements = overflowMarkers := by decide
  rw [helems]
  intro p hp
  have h2 := List.mem_enum_iff_getElem?.mp (List.mem_reverse.mp hp)
  obtain ⟨hlt, heq⟩ := List.getElem?_eq_some.mp h2
  have hmem : p.2 ∈ overflowMarkers := heq ▸ List.getElem_mem hlt
  obtain ⟨i, -, hi⟩ :
      ∃ a, a < 50 ∧ Element.marker "#FF0000" 0 0 12 a = p.2 := by
    simpa [overflowMarkers] using hmem
  rw [← hi]
  simp only [isPointInElement, withinRadius]
  norm_num

/-- handleEraser pushes its remove entry on top of the undo stack with
no eviction. -/
lemma handleEraser_pushes (pos : Pt) (c : Canvas) (el : Element)
    (idx : Nat) (h : findElementAt pos c.elements = some (el, idx)) :
    (handleEraser pos c).undoStack =
      HistAction.remove el idx :: c.undoStack := by
  unfold handleEraser
  rw [h]

/-- The origin click hits the topmost (last-added) marker. -/
lemma overflow_findElementAt :
    findElementAt ⟨0, 0⟩ overflowState.elements =
      some (Element.marker "#FF0000" 0 0 12 49, 49) := by
  unfold findElementAt
  rw [List.filter_eq_self.mpr overflow_hit]
  decide

set_option maxRecDepth 8000 in
/-- C7 fails on the code: after 50 adds the undo stack is full, and one
eraser removal pushes a 51st entry because handleEraser records its
remove entry without the history-cap eviction that addElement performs. -/
theorem eraser_overflows_history :
    overflowState.undoStack.length = 50 ∧
    (handleEraser ⟨0, 0⟩ overflowState).undoStack.length = 51 := by
  refine ⟨by decide, ?_⟩
  rw [handleEraser_pushes ⟨0, 0⟩ overflowState
    (Element.marker "#FF0000" 0 0 12 49) 49 overflow_findElementAt]
  simp only [List.length_cons]
  decide

lemma addElement_stack (e : Element) (c : Canvas) :
    (addElement e c).undoStack.length =
      1 + (if c.maxHistory ≤ c.undoStack.length then
        c.undoStack.length - 1 else c.undoStack.length) ∧
    (addElement e c).redoStack = [] ∧
    (addElement e c).maxHistory = c.maxHistory := by
  unfold addElement
  refine ⟨?_, rfl, rfl⟩
  by_cases h : c.maxHistory ≤ c.undoStack.length
  · simp only [h, if_true, List.length_cons, List.length_dropLast]
    omega
  · simp only [h, if_false, List.length_cons]
    omega

lemma undo_stack (c : Canvas) (tc : TerminationCounter) :
    (undo c tc).1.undoStack.length + (undo c tc).1.redoStack.length =
      c.undoStack.length + c.redoStack.length ∧
    (undo c tc).1.maxHistory = c.maxHistory := by
  unfold undo
  cases h : c.undoStack with
  | nil => simp [h]
  | cons action rest =>
    cases action with
    | add element =>
      constructor
      · simp [h]
        omega
      · simp [h]
    | remove element index =>
      constructor
      · simp [h]
        omega
      · simp [h]

lemma redo_stack (c : Canvas) :
    (redo c).1.undoStack.length + (redo c).1.redoStack.length =
      c.undoStack.length + c.redoStack.length ∧
    (redo c).1.maxHistory = c.maxHistory := by
  unfold redo
  cases h : c.redoStack with
  | nil => simp [h]
  | cons action rest =>
    cases action with
    | add element =>
      constructor
      · simp [h]
        omega
      · simp [h]
    | remove element index =>
      constructor
      · simp [h]
        omega
      · simp [h]

/-- The combined stack budget is preserved by every eraser-free run. -/
lemma runOps_history_bound (ops : List CanvasOp)
    (s : Canvas × TerminationCounter)
    (hmax : s.1.maxHistory = 50)
    (hinv : s.1.undoStack.length + s.1.redoStack.length ≤ 50)
    (hops : ∀ op ∈ ops, isEraseOp op = false) :
    (runOps ops s).1.maxHistory = 50 ∧
    (runOps ops s).1.undoStack.length +
      (runOps ops s).1.redoStack.length ≤ 50 := by
  induction ops generalizing s with
  | nil => exact ⟨hmax, hinv⟩
  | cons op rest ih =>
    have hrw : runOps (op :: rest) s = runOps rest (applyOp s op) := rfl
    rw [hrw]
    have hstep : (applyOp s op).1.maxHistory = 50 ∧
        (applyOp s op).1.undoStack.length +
          (applyOp s op).1.redoStack.length ≤ 50 := by
      cases op with
      | addOp e =>
        have h := addElement_stack e s.1
        constructor
        · simp only [applyOp]
          rw [h.2.2]
          exact hmax
        · simp only [applyOp]
          rw [h.1, h.2.1, hmax]
          simp only [List.length_nil]
          split_ifs <;> omega
      | eraseOp pos =>
        exact absurd (hops _ (List.mem_cons_self ..)) (by simp [isEraseOp])
      | undoOp =>
        have h := undo_stack s.1 s.2
        exact ⟨by simp only [applyOp]; rw [h.2]; exact hmax,
          by simp only [applyOp]; rw [h.1]; exact hinv⟩
      | redoOp =>
        have h := redo_stack s.1
        exact ⟨by simp only [applyOp]; rw [h.2]; exact hmax,
          by simp only [applyOp]; rw [h.1]; exact hinv⟩
      | clearOp =>
        exact ⟨by simp only [applyOp, clear]; exact hmax,
          by simp [applyOp, clear]⟩
    exact ih (applyOp s op) hstep.1 hstep.2
      (fun o ho => hops o (List.mem_cons_of_mem _ ho))

/-- C7 amended: over every eraser-free sequence of addElement, undo,
redo and clear operations from a state within budget, each history stack
stays at most 50 entries (addElement evicts the oldest undo entry when
recording would exceed the cap, and undo/redo only move entries between
the stacks); an eraser removal however pushes its entry without
eviction, so runs containing eraser removals can exceed the cap. -/
theorem history_bounded_without_eraser (ops : List CanvasOp)
    (s : Canvas × TerminationCounter)
    (hmax : s.1.maxHistory = 50)
    (hinv : s.1.undoStack.length + s.1.redoStack.length ≤ 50)
    (hops : ∀ op ∈ ops, isEraseOp op = false) :
    (runOps ops s).1.undoStack.length ≤ 50 ∧
    (runOps ops s).1.redoStack.length ≤ 50 ∧
    (∀ (e : Element) (c : Canvas), c.maxHistory ≤ c.undoStack.length →
      (addElement e c).undoStack =
        HistAction.add e :: c.undoStack.dropLast) ∧
    (∀ (e : Element) (c : Canvas), c.undoStack.length < c.maxHistory →
      (addElement e c).undoStack = HistAction.add e :: c.undoStack) := by
  have h := runOps_history_bound ops s hmax hinv hops
  refine ⟨by omega, by omega, ?_, ?_⟩
  · intro e c hc
    unfold addElement
    rw [if_pos hc]
  · intro e c hc
    unfold addElement
    rw [if_neg (by omega)]

/-- Witness for the amended C7: three adds, an undo, a redo and a clear
from a fresh surface keep both stacks within the cap. -/
theorem history_bounded_without_eraser_witness :
    (runOps [CanvasOp.addOp (Element.marker "#FF0000" 1 2 12 0),
      CanvasOp.addOp (Element.marker "#FF0000" 3 4 12 1),
      CanvasOp.undoOp, CanvasOp.redoOp, CanvasOp.clearOp]
      ({}, {})).1.undoStack.length ≤ 50 ∧
    (runOps [CanvasOp.addOp (Element.marker "#FF0000" 1 2 12 0),
      CanvasOp.addOp (Element.marker "#FF0000" 3 4 12 1),
      CanvasOp.undoOp, CanvasOp.redoOp, CanvasOp.clearOp]
      ({}, {})).1.redoStack.length ≤ 50 := by
  have h := history_bounded_without_eraser
    [CanvasOp.addOp (Element.marker "#FF0000" 1 2 12 0),
      CanvasOp.addOp (Element.marker "#FF0000" 3 4 12 1),
      CanvasOp.undoOp, CanvasOp.redoOp, CanvasOp.clearOp]
    ({}, {}) rfl (by decide) (by decide)
  exact ⟨h.1, h.2.1⟩

/-! ### C9: termination number uniqueness -/

/-- The (number, isFirstPoint) data of the termination elements of a
list, in order. -/
def termInfo (elements : List Element) : List (Nat × Bool) :=
  elements.filterMap fun el =>
    match el with
    | .termination _ _ _ _ n b _ => some (n, b)
    | _ => none

/-- Numbers coincide only between the two members of one pair: any two
entries with equal number have opposite isFirstPoint flags. -/
def PairedNumbers (info : List (Nat × Bool)) : Prop :=
  List.Pairwise (fun a b => a.1 = b.1 → a.2 ≠ b.2) info

/-- A run of termination-tool clicks (position and timestamp each). -/
def placeClicks (clicks : List (Pt × Nat)) (w h : ℚ)
    (s : Canvas × TerminationCounter) : Canvas × TerminationCounter :=
  clicks.foldl (fun s c =>
    ((placeTermination c.1 c.2 w h s.1 s.2).1,
      (placeTermination c.1 c.2 w h s.1 s.2).2.1)) s

/-- First click of a pair at the origin. -/
def dupStep1 : Canvas × TerminationCounter × Option TermPayload :=
  placeTermination ⟨0, 0⟩ 1 1400 500 {} {}

/-- Second click completes pair number 1. -/
def dupStep2 : Canvas × TerminationCounter × Option TermPayload :=
  placeTermination ⟨10, 0⟩ 2 1400 500 dupStep1.1 dupStep1.2.1

/-- Undo removes the second-click element and recycles number 1 even
though its partner is still present. -/
def dupStep3 : Canvas × TerminationCounter × Bool :=
  undo dupStep2.1 dupStep2.2.1

/-- The next first click is allocated the recycled number 1. -/
def dupStep4 : Canvas × TerminationCounter × Option TermPayload :=
  placeTermination ⟨20, 20⟩ 3 1400 500 dupStep3.1 dupStep3.2.1

/-- C9 fails on the code: place a termination pair, undo its second
click (which recycles the pair number while the first-click element is
still present), then start a new termination.  The new first click is
allocated the recycled number, so two currently present termination
elements of the same surface carry number 1 - and both are first
points, so they are not even one linked pair. -/
theorem duplicate_termination_numbers_reachable :
    dupStep4.1.elements =
      [Element.termination "#FF0000" 0 0 "1" 1 true 1,
       Element.termination "#FF0000" 20 20 "1" 1 true 3] ∧
    termInfo dupStep4.1.elements = [(1, true), (1, true)] ∧
    ¬ PairedNumbers (termInfo dupStep4.1.elements) := by
  refine ⟨by decide, by decide, ?_⟩
  intro h
  rw [show termInfo dupStep4.1.elements = [(1, true), (1, true)]
    from by decide] at h
  rcases h with - | ⟨hr, -⟩
  exact hr (1, true) (List.mem_singleton.mpr rfl) rfl rfl

lemma termInfo_append (l1 l2 : List Element) :
    termInfo (l1 ++ l2) = termInfo l1 ++ termInfo l2 :=
  List.filterMap_append l1 l2 _

lemma addElement_elements (e : Element) (c : Canvas) :
    (addElement e c).elements = c.elements ++ [e] := rfl

/-- The inductive invariant of placement-only runs: the pool stays
empty, numbers pair up, every present number lies in [1, count], and
while awaiting a second click the awaited number is count, the stored
first point and color are present, and only the first point of the open
pair carries count. -/
def PlacementInv (s : Canvas × TerminationCounter) : Prop :=
  s.2.availableNumbers = [] ∧
  PairedNumbers (termInfo s.1.elements) ∧
  (∀ p ∈ termInfo s.1.elements, 1 ≤ p.1 ∧ p.1 ≤ s.2.count) ∧
  (s.1.terminationState.waitingForSecondClick = true →
    1 ≤ s.2.count ∧
    s.1.terminationState.currentNumber = some s.2.count ∧
    (∃ fp, s.1.terminationState.firstPoint = some fp) ∧
    (∃ col, s.1.terminationState.color = some col) ∧
    (∀ p ∈ termInfo s.1.elements, p.1 = s.2.count → p.2 = true))

lemma placementInv_init : PlacementInv ({}, {}) := by
  refine ⟨rfl, List.Pairwise.nil, ?_, ?_⟩
  · intro p hp
    cases hp
  · intro h
    cases h

lemma placementInv_step (pos : Pt) (ts : Nat) (w h : ℚ)
    (s : Canvas × TerminationCounter) (hinv : PlacementInv s) :
    PlacementInv ((placeTermination pos ts w h s.1 s.2).1,
      (placeTermination pos ts w h s.1 s.2).2.1) := by
  obtain ⟨hpool, hpair, hbound, hwait⟩ := hinv
  by_cases hw : s.1.terminationState.waitingForSecondClick = true
  · obtain ⟨hc1, hnum, ⟨fp, hfp⟩, ⟨col, hcol⟩, hopen⟩ := hwait hw
    unfold placeTermination
    rw [hw, hfp, hnum, hcol]
    simp only [if_true]
    refine ⟨hpool, ?_, ?_, ?_⟩
    · unfold PairedNumbers
      rw [addElement_elements, termInfo_append, List.pairwise_append]
      refine ⟨hpair, by simp [termInfo, PairedNumbers], ?_⟩
      intro a ha b hb
      have hbv : b = (s.2.count, false) := by
        simpa [termInfo] using hb
      intro heq
      have ha2 : a.2 = true := hopen a ha (by rw [hbv] at heq; exact heq)
      rw [hbv, ha2]
      simp
    · intro p hp
      rw [addElement_elements, termInfo_append] at hp
      rcases List.mem_append.mp hp with hp | hp
      · exact hbound p hp
      · have hpv : p = (s.2.count, false) := by
          simpa [termInfo] using hp
        rw [hpv]
        exact ⟨hc1, le_refl _⟩
    · intro hcontra
      simp at hcontra
  · have hw' : s.1.terminationState.waitingForSecondClick = false := by
      cases hb : s.1.terminationState.waitingForSecondClick
      · rfl
      · exact absurd hb hw
    unfold placeTermination
    rw [hw']
    simp only [Bool.false_eq_true, if_false, getNext_empty s.2 hpool]
    refine ⟨rfl, ?_, ?_, ?_⟩
    · unfold PairedNumbers
      rw [addElement_elements, termInfo_append, List.pairwise_append]
      refine ⟨hpair, by simp [termInfo, PairedNumbers], ?_⟩
      intro a ha b hb heq
      have hbv : b = (s.2.count + 1, true) := by
        simpa [termInfo] using hb
      have ha2 := (hbound a ha).2
      rw [hbv] at heq
      omega
    · intro p hp
      rw [addElement_elements, termInfo_append] at hp
      rcases List.mem_append.mp hp with hp | hp
      · refine ⟨(hbound p hp).1, ?_⟩
        show p.1 ≤ s.2.count + 1
        have := (hbound p hp).2
        omega
      · have hpv : p = (s.2.count + 1, true) := by
          simpa [termInfo] using hp
        rw [hpv]
        exact ⟨by omega, le_refl _⟩
    · intro _
      refine ⟨?_, rfl, ⟨pos, rfl⟩, ⟨s.1.currentColor, rfl⟩, ?_⟩
      · show (1 : Nat) ≤ s.2.count + 1
        omega
      · intro p hp
        rw [addElement_elements, termInfo_append] at hp
        rcases List.mem_append.mp hp with hp | hp
        · intro heq
          have h2 := (hbound p hp).2
          have heq' : p.1 = s.2.count + 1 := heq
          omega
        · have hpv : p = (s.2.count + 1, true) := by
            simpa [termInfo] using hp
          intro _
          rw [hpv]

lemma placeClicks_inv (clicks : List (Pt × Nat)) (w h : ℚ)
    (s : Canvas × TerminationCounter) (hinv : PlacementInv s) :
    PlacementInv (placeClicks clicks w h s) := by
  induction clicks generalizing s with
  | nil => exact hinv
  | cons c rest ih =>
    exact ih _ (placementInv_step c.1 c.2 w h s hinv)

/-- C9 amended: in every run consisting solely of termination-tool
clicks from a fresh surface and registry, two currently present
termination elements carry the same number only when they are the
first and second points of one pair (opposite isFirstPoint flags); in
particular distinct pairs carry distinct numbers.  The unrestricted
claim fails because undo recycles a number while its partner element is
still present (see the counterexample). -/
theorem termination_numbers_paired (clicks : List (Pt × Nat))
    (w h : ℚ) :
    PairedNumbers
      (termInfo (placeClicks clicks w h ({}, {})).1.elements) :=
  (placeClicks_inv clicks w h ({}, {}) placementInv_init).2.1

/-! ### C5: undo/redo round trip over consecutive adds -/

/-- Consecutive addElement calls. -/
def addN (c : Canvas) (es : List Element) : Canvas :=
  es.foldl (fun c e => addElement e c) c

/-- k consecutive undo calls, threading the shared registry. -/
def undoN : Nat → Canvas × TerminationCounter →
    Canvas × TerminationCounter
  | 0, s => s
  | k + 1, s => undoN k ((undo s.1 s.2).1, (undo s.1 s.2).2.1)

/-- k consecutive redo calls. -/
def redoN : Nat → Canvas → Canvas
  | 0, c => c
  | k + 1, c => redoN k (redo c).1

lemma addN_concat (c : Canvas) (es : List Element) (e : Element) :
    addN c (es ++ [e]) = addElement e (addN c es) := by
  unfold addN
  rw [List.foldl_append]
  rfl

lemma addN_elements (c : Canvas) (es : List Element) :
    (addN c es).elements = c.elements ++ es := by
  induction es using List.reverseRecOn with
  | nil => simp [addN]
  | append_singleton es e ih =>
    rw [addN_concat, addElement_elements, ih, List.append_assoc]

lemma addN_maxHistory (c : Canvas) (es : List Element) :
    (addN c es).maxHistory = c.maxHistory := by
  induction es using List.reverseRecOn with
  | nil => rfl
  | append_singleton es e ih =>
    rw [addN_concat]
    exact ih

lemma addN_redoStack (c : Canvas) (es : List Element) (h : es ≠ []) :
    (addN c es).redoStack = [] := by
  rcases List.eq_nil_or_concat es with rfl | ⟨es', e, rfl⟩
  · exact absurd rfl h
  · rw [List.concat_eq_append, addN_concat]
    rfl

/-- After at most maxHistory adds, the new undo entries all sit on top
of the stack, newest first. -/
lemma addN_undoStack_shape (c : Canvas) (es : List Element) :
    es.length ≤ c.maxHistory →
    ∃ R, (addN c es).undoStack =
      es.reverse.map HistAction.add ++ R := by
  induction es using List.reverseRecOn with
  | nil =>
    intro _
    exact ⟨c.undoStack, by simp [addN]⟩
  | append_singleton es e ih =>
    intro hlen
    rw [List.length_append, List.length_singleton] at hlen
    obtain ⟨R, hR⟩ := ih (by omega)
    rw [addN_concat]
    unfold addElement
    by_cases hd : (addN c es).maxHistory ≤ (addN c es).undoStack.length
    · have hmax := addN_maxHistory c es
      have hRne : R ≠ [] := by
        intro hR0
        rw [hR0, List.append_nil] at hR
        rw [hR, hmax, List.length_map, List.length_reverse] at hd
        omega
      refine ⟨R.dropLast, ?_⟩
      simp only [hd, if_true]
      rw [hR, List.dropLast_append_of_ne_nil _ hRne]
      simp [List.reverse_append]
    · refine ⟨R, ?_⟩
      simp only [hd, if_false]
      rw [hR]
      simp [List.reverse_append]

/-- From an empty undo stack, at most maxHistory adds build exactly the
stack of their add entries, newest first. -/
lemma addN_undoStack_exact (c : Canvas) (es : List Element) :
    c.undoStack = [] → es.length ≤ c.maxHistory →
    (addN c es).undoStack = es.reverse.map HistAction.add := by
  induction es using List.reverseRecOn with
  | nil =>
    intro h _
    simpa [addN] using h
  | append_singleton es e ih =>
    intro h0 hlen
    rw [List.length_append, List.length_singleton] at hlen
    have hex := ih h0 (by omega)
    rw [addN_concat]
    unfold addElement
    have hlt : ¬ ((addN c es).maxHistory ≤
        (addN c es).undoStack.length) := by
      rw [addN_maxHistory, hex, List.length_map, List.length_reverse]
      omega
    simp only [hlt, if_false]
    rw [hex]
    simp [List.reverse_append]

lemma undo_cons_add (c : Canvas) (tc : TerminationCounter) (e : Element)
    (rest : List HistAction)
    (h : c.undoStack = HistAction.add e :: rest) :
    (undo c tc).1 = { c with
      elements := c.elements.erase e
      undoStack := rest
      redoStack := HistAction.add e :: c.redoStack } ∧
    (undo c tc).2.2 = true := by
  unfold undo
  rw [h]
  exact ⟨rfl, rfl⟩

lemma undo_true_iff (c : Canvas) (tc : TerminationCounter) :
    (undo c tc).2.2 = true ↔ c.undoStack ≠ [] := by
  unfold undo
  cases h : c.undoStack with
  | nil => simp
  | cons action rest =>
    cases action with
    | add element => simp
    | remove element index => simp

lemma redo_true_iff (c : Canvas) :
    (redo c).2 = true ↔ c.redoStack ≠ [] := by
  unfold redo
  cases h : c.redoStack with
  | nil => simp
  | cons action rest =>
    cases action with
    | add element => simp
    | remove element index => simp

lemma nodup_concat_not_mem (l : List Element) (e : Element)
    (h : (l ++ [e]).Nodup) : e ∉ l := by
  intro hmem
  exact (List.nodup_append.mp h).2.2 hmem (List.mem_singleton.mpr rfl)

/-- Undoing k of the add entries on top of the stack removes the last k
added elements, keeps the earlier entries, and parks the undone adds on
the redo stack. -/
lemma undoN_adds (k : Nat) :
    ∀ (es E : List Element) (R : List HistAction) (c : Canvas)
      (tc : TerminationCounter),
    c.elements = E ++ es →
    c.undoStack = es.reverse.map HistAction.add ++ R →
    (E ++ es).Nodup →
    k ≤ es.length →
    (undoN k (c, tc)).1.elements = E ++ es.take (es.length - k) ∧
    (undoN k (c, tc)).1.undoStack =
      (es.take (es.length - k)).reverse.map HistAction.add ++ R ∧
    (undoN k (c, tc)).1.redoStack =
      (es.drop (es.length - k)).map HistAction.add ++ c.redoStack := by
  induction k with
  | zero =>
    intro es E R c tc hel hus hnd hk
    refine ⟨?_, ?_, ?_⟩ <;> simp [undoN, hel, hus]
  | succ k ih =>
    intro es E R c tc hel hus hnd hk
    rcases List.eq_nil_or_concat es with rfl | ⟨es', e, rfl⟩
    · simp at hk
    · rw [List.concat_eq_append] at hel hus hnd hk ⊢
      rw [List.length_append, List.length_singleton] at hk ⊢
      have hkk : k ≤ es'.length := by omega
      have hnotmem : e ∉ E ++ es' := by
        have h2 : ((E ++ es') ++ [e]).Nodup := by
          rw [List.append_assoc]
          exact hnd
        exact nodup_concat_not_mem _ _ h2
      have hstep := undo_cons_add c tc e
        (es'.reverse.map HistAction.add ++ R)
        (by rw [hus]; simp [List.reverse_append])
      have hrun : undoN (k + 1) (c, tc) =
          undoN k ((undo c tc).1, (undo c tc).2.1) := rfl
      rw [hrun]
      have herase : c.elements.erase e = E ++ es' := by
        rw [hel, ← List.append_assoc]
        rw [List.erase_append_right _ hnotmem]
        simp
      have hih := ih es' E R (undo c tc).1 (undo c tc).2.1
        (by rw [hstep.1]; exact herase)
        (by rw [hstep.1])
        (by
          have hsub : (E ++ es').Sublist ((E ++ es') ++ [e]) :=
            List.sublist_append_left _ _
          rw [List.append_assoc] at hsub
          exact hnd.sublist hsub)
        hkk
      have harith : es'.length + 1 - (k + 1) = es'.length - k := by omega
      rw [harith]
      have htake : (es' ++ [e]).take (es'.length - k) =
          es'.take (es'.length - k) :=
        List.take_append_of_le_length (by omega)
      have hdrop : (es' ++ [e]).drop (es'.length - k) =
          es'.drop (es'.length - k) ++ [e] :=
        List.drop_append_of_le_length (by omega)
      refine ⟨?_, ?_, ?_⟩
      · rw [hih.1, htake]
      · rw [hih.2.1, htake]
      · rw [hih.2.2, hstep.1]
        rw [hdrop, List.map_append]
        simp

/-- Redoing k of the add entries on top of the redo stack re-appends the
first k undone elements in their original order. -/
lemma redoN_adds (k : Nat) :
    ∀ (es : List Element) (R' : List HistAction) (c : Canvas),
    c.redoStack = es.map HistAction.add ++ R' →
    k ≤ es.length →
    (redoN k c).elements = c.elements ++ es.take k ∧
    (redoN k c).redoStack = (es.drop k).map HistAction.add ++ R' := by
  induction k with
  | zero =>
    intro es R' c h hk
    simp [redoN, h]
  | succ k ih =>
    intro es R' c h hk
    cases es with
    | nil => simp at hk
    | cons e es' =>
      have hstep : (redo c).1 = { c with
          elements := c.elements ++ [e]
          redoStack := es'.map HistAction.add ++ R'
          undoStack := HistAction.add e :: c.undoStack } := by
        unfold redo
        rw [h]
        rfl
      have hrun : redoN (k + 1) c = redoN k (redo c).1 := rfl
      have hih := ih es' R' (redo c).1 (by rw [hstep])
        (by rw [List.length_cons] at hk; omega)
      rw [hrun]
      constructor
      · rw [hih.1, hstep]
        simp [List.append_assoc]
      · rw [hih.2]
        rfl

lemma dropLast_reverse_map (es : List Element) :
    (es.reverse.map HistAction.add).dropLast =
      (es.drop 1).reverse.map HistAction.add := by
  rw [← List.map_dropLast]
  congr 1
  cases es with
  | nil => rfl
  | cons a t => simp [List.reverse_cons, List.dropLast_concat]

/-- C5: for n at most the 50-entry history cap, n adds of fresh elements
followed by n undos restore the element list to its state before the
first add; n redos then replay it to the state after the nth add; every
one of those undos and redos returns true, and in general undo/redo
return true exactly when an entry is available; past the cap the evicted
entry is not individually undoable: after 51 adds from a fresh surface
50 undos leave the first element in place and the 51st undo returns
false. -/
theorem undo_redo_roundtrip_up_to_cap (c : Canvas)
    (tc : TerminationCounter) (es : List Element)
    (hnd : (c.elements ++ es).Nodup) (hmax : c.maxHistory = 50) :
    (addN c es).elements = c.elements ++ es ∧
    (es.length ≤ 50 →
      (undoN es.length (addN c es, tc)).1.elements = c.elements ∧
      (redoN es.length (undoN es.length (addN c es, tc)).1).elements =
        c.elements ++ es ∧
      (∀ j < es.length,
        (undo (undoN j (addN c es, tc)).1
          (undoN j (addN c es, tc)).2).2.2 = true) ∧
      (∀ j < es.length,
        (redo (redoN j (undoN es.length (addN c es, tc)).1)).2 =
          true)) ∧
    (∀ (c' : Canvas) (tc' : TerminationCounter),
      ((undo c' tc').2.2 = true ↔ c'.undoStack ≠ []) ∧
      ((redo c').2 = true ↔ c'.redoStack ≠ [])) ∧
    (es.length = 51 → c.elements = [] → c.undoStack = [] →
      (undoN 50 (addN c es, tc)).1.elements = es.take 1 ∧
      (undo (undoN 50 (addN c es, tc)).1
        (undoN 50 (addN c es, tc)).2).2.2 = false) := by
  refine ⟨addN_elements c es, ?_,
    fun c' tc' => ⟨undo_true_iff c' tc', redo_true_iff c'⟩, ?_⟩
  · intro hlen
    obtain ⟨R, hR⟩ := addN_undoStack_shape c es (by rw [hmax]; exact hlen)
    have hmain := undoN_adds es.length es c.elements R (addN c es) tc
      (addN_elements c es) hR hnd (le_refl _)
    have hz : es.length - es.length = 0 := by omega
    rw [hz, List.take_zero, List.drop_zero] at hmain
    have hredostack :
        (undoN es.length (addN c es, tc)).1.redoStack =
          es.map HistAction.add ++ (addN c es).redoStack := hmain.2.2
    refine ⟨by simpa using hmain.1, ?_, ?_, ?_⟩
    · have hredo := redoN_adds es.length es ((addN c es).redoStack)
        (undoN es.length (addN c es, tc)).1 hredostack (le_refl _)
      rw [hredo.1, hmain.1]
      simp [List.take_length]
    · intro j hj
      obtain ⟨-, hstack, -⟩ := undoN_adds j es c.elements R (addN c es)
        tc (addN_elements c es) hR hnd (by omega)
      rw [undo_true_iff, hstack]
      intro hcontra
      have hlcontra := congrArg List.length hcontra
      simp only [List.length_append, List.length_map,
        List.length_reverse, List.length_take, List.length_nil]
        at hlcontra
      omega
    · intro j hj
      have hredo := redoN_adds j es ((addN c es).redoStack)
        (undoN es.length (addN c es, tc)).1 hredostack (by omega)
      rw [redo_true_iff, hredo.2]
      intro hcontra
      have hlcontra := congrArg List.length hcontra
      simp only [List.length_append, List.length_map, List.length_drop,
        List.length_nil] at hlcontra
      omega
  · intro h51 hce hcu
    rcases List.eq_nil_or_concat es with rfl | ⟨es', e, rfl⟩
    · simp at h51
    · rw [List.concat_eq_append] at h51 hnd ⊢
      rw [List.length_append, List.length_singleton] at h51
      have hlen' : es'.length = 50 := by omega
      have hexact : (addN c es').undoStack =
          es'.reverse.map HistAction.add :=
        addN_undoStack_exact c es' hcu (by omega)
      have hstack : (addN c (es' ++ [e])).undoStack =
          ((es'.drop 1 ++ [e]).reverse.map HistAction.add) ++ [] := by
        rw [addN_concat]
        unfold addElement
        have hd : (addN c es').maxHistory ≤
            (addN c es').undoStack.length := by
          rw [addN_maxHistory, hmax, hexact, List.length_map,
            List.length_reverse]
          omega
        simp only [hd, if_true]
        rw [hexact, dropLast_reverse_map]
        simp [List.reverse_append]
      have hnd' : (es' ++ [e]).Nodup := by
        rw [hce] at hnd
        simpa using hnd
      have helems : (addN c (es' ++ [e])).elements =
          es'.take 1 ++ (es'.drop 1 ++ [e]) := by
        rw [addN_elements, hce, List.nil_append, ← List.append_assoc,
          List.take_append_drop]
      have hndsplit : (es'.take 1 ++ (es'.drop 1 ++ [e])).Nodup := by
        rw [← List.append_assoc, List.take_append_drop]
        exact hnd'
      have hlenES : (es'.drop 1 ++ [e]).length = 50 := by
        rw [List.length_append, List.length_singleton, List.length_drop]
        omega
      have hmain := undoN_adds 50 (es'.drop 1 ++ [e]) (es'.take 1) []
        (addN c (es' ++ [e])) tc helems hstack hndsplit (by omega)
      rw [hlenES] at hmain
      have hz : (50 : Nat) - 50 = 0 := by omega
      rw [hz, List.take_zero] at hmain
      constructor
      · rw [hmain.1]
        rw [List.take_append_of_le_length (by omega)]
        simp
      · have hempty : (undoN 50 (addN c (es' ++ [e]), tc)).1.undoStack =
            [] := by
          rw [hmain.2.1]
          simp
        cases hb : (undo (undoN 50 (addN c (es' ++ [e]), tc)).1
            (undoN 50 (addN c (es' ++ [e]), tc)).2).2.2 with
        | false => rfl
        | true =>
          exact absurd hempty ((undo_true_iff _ _).mp hb)

/-- Witness for C5 with two fresh markers on a fresh surface: both adds
undo to the empty list and redo back. -/
theorem undo_redo_roundtrip_up_to_cap_witness :
    (([] : List Element) ++ [Element.marker "#FF0000" 1 2 12 0,
      Element.marker "#FF0000" 3 4 12 1]).Nodup ∧
    (undoN 2 (addN {} [Element.marker "#FF0000" 1 2 12 0,
      Element.marker "#FF0000" 3 4 12 1], {})).1.elements =
      ([] : List Element) ∧
    (redoN 2 (undoN 2 (addN {} [Element.marker "#FF0000" 1 2 12 0,
      Element.marker "#FF0000" 3 4 12 1], {})).1).elements =
      ([] : List Element) ++ [Element.marker "#FF0000" 1 2 12 0,
        Element.marker "#FF0000" 3 4 12 1] := by
  have h := undo_redo_roundtrip_up_to_cap {} {}
    [Element.marker "#FF0000" 1 2 12 0, Element.marker "#FF0000" 3 4 12 1]
    (by decide) rfl
  have h2 := h.2.1 (by decide)
  exact ⟨by decide, h2.1, h2.2.1⟩

end SeqStrat
